import Mathlib

/-!
Verification of the AVD_v1 MQTT-to-relational ingestion pipeline.

This file gives a shallow embedding, in Lean 4, of the pure computational
core of the repository (pattern matching, topic sanitization, MQTT topic
filter matching, the data transformer, the consecutive- and
interval-difference derivation engines, the device registry operation and
the relevant part of the router), translated function by function from the
Python source, and proves or refutes the specification claims about them.

Python dynamic values are modelled by the inductive type `PyValue`
(following the spec's own design note: a recursive variant
Null/Bool/Int/Float/String/List/Map).  Python dicts are modelled as
association lists with the usual first-match `lookup` semantics; float
arithmetic is modelled exactly over `ℚ`.  A Python `bool` is an `int`
subtype, so `isinstance(v, int)` is `true` on booleans; the embedding's
`pyIsInstInt` reflects this.
-/

set_option maxHeartbeats 1000000

namespace AVD

/-- Model of a Python/JSON dynamic value (spec §9 design note). -/
inductive PyValue where
  | none : PyValue
  | bool : Bool → PyValue
  | int : Int → PyValue
  | float : ℚ → PyValue
  | str : String → PyValue
  | list : List PyValue → PyValue
  | dict : List (String × PyValue) → PyValue

/-- `isinstance(v, bool)` in Python. -/
def pyIsInstBool : PyValue → Bool
  | .bool _ => true
  | _ => false

/-- `isinstance(v, int)` in Python: `bool` is a subtype of `int`. -/
def pyIsInstInt : PyValue → Bool
  | .int _ => true
  | .bool _ => true
  | _ => false

/-- `isinstance(v, float)` in Python. -/
def pyIsInstFloat : PyValue → Bool
  | .float _ => true
  | _ => false

/-- `isinstance(v, str)` in Python. -/
def pyIsInstStr : PyValue → Bool
  | .str _ => true
  | _ => false

/-- Dict lookup (`d[k]` / `d.get(k)`), first binding wins.  A Python dict
has unique keys; an association list with duplicate keys still behaves
like the dict it denotes because every operation acts on the first
binding. -/
def aget {κ β : Type} [DecidableEq κ] : List (κ × β) → κ → Option β
  | [], _ => Option.none
  | (k', v) :: d, k => if k' = k then some v else aget d k

/-- `k in d` for a Python dict. -/
def amem {κ β : Type} [DecidableEq κ] (d : List (κ × β)) (k : κ) : Bool :=
  (aget d k).isSome

/-- Dict update `d[k] = v`: replace the binding in place if the key
exists, else append (insertion order preserved, as in Python). -/
def aset {κ β : Type} [DecidableEq κ] : List (κ × β) → κ → β → List (κ × β)
  | [], k, v => [(k, v)]
  | (k', w) :: d, k, v => if k' = k then (k, v) :: d else (k', w) :: aset d k v

/-- `del d[k]` for a Python dict. -/
def adel {κ β : Type} [DecidableEq κ] : List (κ × β) → κ → List (κ × β)
  | [], _ => []
  | (k', w) :: d, k => if k' = k then d else (k', w) :: adel d k

/-- Python truthiness (`if value:`): `None`, `False`, numeric zero, empty
string/list/dict are falsy. -/
def pyTruthy : PyValue → Bool
  | .none => false
  | .bool b => b
  | .int n => n ≠ 0
  | .float q => q ≠ 0
  | .str s => s ≠ ""
  | .list l => ¬l.isEmpty
  | .dict d => ¬d.isEmpty

/-- `str(v)` for the scalar values that occur as device ids and
timestamps.  The renderings of floats and containers are abbreviated
models (no theorem in this file depends on them). -/
def pyStr : PyValue → String
  | .none => "None"
  | .bool b => if b then "True" else "False"
  | .int n => toString n
  | .float q => toString q.num ++ "/" ++ toString q.den
  | .str s => s
  | .list _ => "[list]"
  | .dict _ => "[dict]"

/-! ## Numeric coercions (`_try_convert_to_numeric`, `int(...)`)

`Router._try_convert_to_numeric` and the identical function in
`IntervalDifferenceCalculator` accept `int`/`float` instances (hence also
`bool`, an `int` subtype) and strings whose stripped form parses as a
Python float.  The string parser below models the plain decimal forms
(optional sign, digits, optional fractional digits); exotic float
literals (exponents, `inf`, `nan`) are not modelled and no theorem
depends on them. -/

/-- Numeric value of a nonempty digit string. -/
def digitsVal (l : List Char) : Nat :=
  l.foldl (fun acc c => acc * 10 + (c.toNat - '0'.toNat)) 0

/-- Parse an unsigned decimal literal `digits[.digits]` (at least one
digit overall, as Python `float` requires). -/
def parseUnsignedDecimal (l : List Char) : Option ℚ :=
  let intPart := l.takeWhile (·.isDigit)
  let rest := l.dropWhile (·.isDigit)
  match rest with
  | [] => if intPart.isEmpty then Option.none else some (digitsVal intPart : ℚ)
  | '.' :: frac =>
    if frac.all (·.isDigit) && !(intPart.isEmpty && frac.isEmpty) then
      some ((digitsVal intPart : ℚ) + (digitsVal frac : ℚ) / (10 ^ frac.length : ℚ))
    else Option.none
  | _ => Option.none

/-- `float(s)` on an already-stripped string, decimal forms. -/
def pyFloatOfString (s : String) : Option ℚ :=
  match s.data with
  | '-' :: rest => (parseUnsignedDecimal rest).map Neg.neg
  | '+' :: rest => parseUnsignedDecimal rest
  | l => parseUnsignedDecimal l

/-- `value.strip()` (whitespace). -/
def pyStrip (s : String) : String :=
  ⟨((s.data.dropWhile (·.isWhitespace)).reverse.dropWhile (·.isWhitespace)).reverse⟩

/-- `_try_convert_to_numeric` (identical in `router.py` and
`interval_difference_calculator.py`): `isinstance(value, (int, float))`
converts directly (booleans are ints: `float(True) = 1.0`); strings are
stripped and, when nonempty, parsed as float; everything else is `None`. -/
def try_convert_to_numeric : PyValue → Option ℚ
  | .int n => some (n : ℚ)
  | .bool b => some (if b then 1 else 0)
  | .float q => some q
  | .str s =>
    let cleaned := pyStrip s
    if cleaned ≠ "" then pyFloatOfString cleaned else Option.none
  | _ => Option.none

/-- Truncation toward zero, as Python `int(float)`. -/
def ratTrunc (q : ℚ) : Int :=
  if 0 ≤ q then ⌊q⌋ else -⌊-q⌋

/-- Parse `int(s)`: optional surrounding whitespace, optional sign,
decimal digits (Python's underscore separators are not modelled; no
theorem depends on them). -/
def pyIntOfString (s : String) : Option Int :=
  let go : List Char → Option Int := fun l =>
    if !l.isEmpty && l.all (·.isDigit) then some (digitsVal l : Int) else Option.none
  match (pyStrip s).data with
  | '-' :: rest => (go rest).map Neg.neg
  | '+' :: rest => go rest
  | l => go l

/-- `int(value)`: ints and bools pass through, floats truncate toward
zero, strings parse as integer literals; anything else raises
(`TypeError`), modelled as `none`. -/
def pyToInt : PyValue → Option Int
  | .int n => some n
  | .bool b => some (if b then 1 else 0)
  | .float q => some (ratTrunc q)
  | .str s => pyIntOfString s
  | _ => Option.none

/-! ## Topic sanitization (`Router._safe_topic`, `TableManager._generate_table_name`)

The source lowercases the topic, substitutes runs of `[^a-z0-9_]` by `_`
(`re.sub(r"[^a-z0-9_]+", "_", topic.lower())`), collapses runs of `_`
(`re.sub(r"_+", "_", ...)`) and strips leading/trailing `_`
(`.strip('_')`).  Because the second substitution collapses every run of
underscores anyway, substituting each offending character separately gives
the same composite result; the embedding works character by character and
then collapses. -/

/-- ASCII model of `str.lower()` on one character. -/
def pyLowerChar (c : Char) : Char :=
  if 'A' ≤ c ∧ c ≤ 'Z' then Char.ofNat (c.toNat + 32) else c

/-- `s.lower()` character by character (structural model of
`str.lower`, reducible in the kernel unlike `String.toLower`). -/
def strLower (s : String) : String :=
  ⟨s.data.map pyLowerChar⟩

/-- Characters admitted by the class `[a-z0-9_]`. -/
def safeChar (c : Char) : Bool :=
  ('a' ≤ c && c ≤ 'z') || ('0' ≤ c && c ≤ '9') || c == '_'

/-- Substitution step of `re.sub(r"[^a-z0-9_]+", "_", s)` taken per
character (runs are collapsed by the subsequent `_+` substitution). -/
def replaceBadChars (l : List Char) : List Char :=
  l.map (fun c => if safeChar c then c else '_')

/-- `re.sub(r"_+", "_", s)`: collapse each run of underscores to one. -/
def collapseUnderscores : List Char → List Char
  | [] => []
  | [c] => [c]
  | c :: d :: rest =>
    if c = '_' ∧ d = '_' then collapseUnderscores (d :: rest)
    else c :: collapseUnderscores (d :: rest)

/-- `s.strip('_')`: drop leading and trailing underscores. -/
def stripUnderscores (l : List Char) : List Char :=
  ((l.dropWhile (· == '_')).reverse.dropWhile (· == '_')).reverse

/-- `Router._safe_topic` / the sanitization inside
`TableManager._generate_table_name`. -/
def safe_topic (s : String) : String :=
  ⟨stripUnderscores (collapseUnderscores (replaceBadChars (s.data.map pyLowerChar)))⟩

/-! ## MQTT topic filter matching (`mqtt_hub._topic_filter_matches`) -/

/-- The `while i < len(f_parts)` loop of `_topic_filter_matches`, with the
index position replaced by the usual suffix recursion: at each step the
head of the remaining filter levels is examined exactly as the loop body
examines `f_parts[i]`, and when the filter is exhausted the loop's final
`return i == len(t_parts)` becomes the check that the topic levels are
exhausted too. -/
def filterLoop : List String → List String → Bool
  | [], ts => ts.isEmpty
  | f :: fs, ts =>
    if f = "#" then fs.isEmpty
    else
      match ts with
      | [] => false
      | t :: ts' => (f = "+" || f = t) && filterLoop fs ts'

/-- `mqtt_hub._topic_filter_matches`: exact-equality fast path, then the
level-by-level loop over the `'/'`-split filter and topic. -/
def topic_filter_matches (filter_str topic : String) : Bool :=
  if filter_str = topic then true
  else filterLoop (filter_str.splitOn "/") (topic.splitOn "/")

/-- Spec-side statement of MQTT level matching, written from the claim's
words: a filter whose last level is `#` (with `#` nowhere earlier)
matches any topic that has at least the filter's other levels, each equal
or `+`; a filter containing `#` in a non-final position matches no topic;
otherwise the level counts must be equal and every filter level must be
`+` or equal to the corresponding topic level. -/
def mqttSpecLevels (fs ts : List String) : Bool :=
  if "#" ∈ fs then
    decide (fs.getLast? = some "#") && !(decide ("#" ∈ fs.dropLast)) &&
      decide (fs.length - 1 ≤ ts.length) &&
      (List.zip fs.dropLast ts).all (fun p => p.1 = "+" || p.1 = p.2)
  else
    decide (fs.length = ts.length) &&
      (List.zip fs ts).all (fun p => p.1 = "+" || p.1 = p.2)

/-- Spec-side statement of MQTT filter semantics, from the claim's words:
an identical string always matches, and otherwise the `'/'`-split levels
must match per `mqttSpecLevels`. -/
def mqttSpecMatches (filter_str topic : String) : Bool :=
  if filter_str = topic then true
  else mqttSpecLevels (filter_str.splitOn "/") (topic.splitOn "/")

/-! ## PatternMatcher (`patterns.py`) -/

/-- A configured pattern: `name`, `match.keys` (empty list when the key is
absent), and whether a truthy `match.schema` marker is present. -/
structure Pattern where
  name : String
  matchKeys : List String
  matchSchema : Bool

/-- `v[0] if isinstance(v, list) and v else v`: first element of a
nonempty list, the value itself otherwise. -/
def firstIfList : PyValue → PyValue
  | .list (v :: _) => v
  | v => v

/-- `set(payload.keys())` as a duplicate-free list in first-occurrence
order. -/
def keySet {β : Type} (d : List (String × β)) : List String :=
  (d.map Prod.fst).dedup

/-- Score from `PatternMatcher.match`: `1000 if len(req) == len(keys)
else len(req)`. -/
def exactnessScore (keys req : List String) : Nat :=
  if req.length = keys.length then 1000 else req.length

/-- `req and req.issubset(keys)` for `req = set(p.match.keys)`. -/
def patternQualifies (keys : List String) (p : Pattern) : Bool :=
  let req := p.matchKeys.dedup
  !req.isEmpty && req.all (· ∈ keys)

/-- The best-candidate fold in `PatternMatcher.match`: scan patterns in
order, keeping the candidate with the strictly greatest score (ties keep
the earlier pattern). -/
def bestMatch (patterns : List Pattern) (keys : List String) : Option (Nat × Pattern) :=
  patterns.foldl
    (fun best p =>
      if patternQualifies keys p then
        let sc := exactnessScore keys (p.matchKeys.dedup)
        match best with
        | Option.none => some (sc, p)
        | some b => if sc > b.1 then some (sc, p) else some b
      else best)
    Option.none

/-- The schema fallback of `PatternMatcher.match`: the first pattern with
a truthy `match.schema`, provided the payload is a dict with both `d` and
`ts` keys. -/
def schemaStage (patterns : List Pattern) (payload : PyValue) : Option (String × Pattern) :=
  match payload with
  | .dict d =>
    if amem d "d" && amem d "ts" then
      (patterns.find? (·.matchSchema)).map (fun p => (p.name, p))
    else Option.none
  | _ => Option.none

/-- `payload['d']` when it is a dict. -/
def dEnvelope : PyValue → Option (List (String × PyValue))
  | .dict d =>
    match aget d "d" with
    | some (.dict dd) => some dd
    | _ => Option.none
  | _ => Option.none

/-- `PatternMatcher.match`: best keys-subset match over the top-level key
set, else over the nested `d` dict's key set, else the schema fallback. -/
def pm_match (patterns : List Pattern) (payload : PyValue) : Option (String × Pattern) :=
  let stage1 :=
    match payload with
    | .dict d => (bestMatch patterns (keySet d)).map (fun (b : Nat × Pattern) => (b.2.name, b.2))
    | _ => Option.none
  match stage1 with
  | some r => some r
  | Option.none =>
    match dEnvelope payload with
    | some dd =>
      match (bestMatch patterns (keySet dd)).map (fun (b : Nat × Pattern) => (b.2.name, b.2)) with
      | some r => some r
      | Option.none => schemaStage patterns payload
    | Option.none => schemaStage patterns payload

/-- The claim's description of the same procedure, stated through
`List.argmax`: among the patterns whose non-empty required key set is a
subset of the payload's keys, return the highest-scoring one, the
earliest winning ties (`List.argmax` returns the first maximising
element); else repeat over the nested `d` keys; else the first
schema-marker pattern when the payload has both `d` and `ts`; else
nothing. -/
def claimMatch (patterns : List Pattern) (payload : PyValue) : Option (String × Pattern) :=
  match payload with
  | .dict d =>
    match (patterns.filter (patternQualifies (keySet d))).argmax
        (fun p => exactnessScore (keySet d) (p.matchKeys.dedup)) with
    | some p => some (p.name, p)
    | Option.none =>
      match dEnvelope (.dict d) with
      | some dd =>
        match (patterns.filter (patternQualifies (keySet dd))).argmax
            (fun p => exactnessScore (keySet dd) (p.matchKeys.dedup)) with
        | some p => some (p.name, p)
        | Option.none => schemaStage patterns (.dict d)
      | Option.none => schemaStage patterns (.dict d)
  | _ => Option.none

/-- The type-inference chain of `derive_columns_auto`:
`isinstance(vv, int)` (true for booleans), then `float`, then `str`, else
`json`. -/
def inferTypeAuto (vv : PyValue) : String :=
  if pyIsInstInt vv then "int"
  else if pyIsInstFloat vv then "float"
  else if pyIsInstStr vv then "string"
  else "json"

/-- `PatternMatcher.derive_columns_auto`: start from `{topic: string}`;
with a `d`-dict envelope, add a column per `d` field (first element of a
nonempty list decides the type) and `ts: string` when present; otherwise
a column per top-level field; non-dict payloads get `payload: json`. -/
def derive_columns_auto (payload : PyValue) : List (String × String) :=
  let cols0 : List (String × String) := [("topic", "string")]
  match payload with
  | .dict d =>
    match aget d "d" with
    | some (.dict dd) =>
      let cols := dd.foldl
        (fun cols kv =>
          if amem cols kv.1 then cols
          else cols ++ [(kv.1, inferTypeAuto (firstIfList kv.2))]) cols0
      if amem d "ts" then aset cols "ts" "string" else cols
    | _ =>
      d.foldl
        (fun cols kv =>
          if amem cols kv.1 then cols
          else cols ++ [(kv.1, inferTypeAuto kv.2)]) cols0
  | _ => cols0 ++ [("payload", "json")]

/-- `PatternMatcher.to_row_auto`: flatten the `d` envelope (first element
of nonempty lists), keep `ts`, prepend `topic`; flat dicts are copied;
non-dict payloads become a `payload` field. -/
def to_row_auto (topic : String) (payload : PyValue) : List (String × PyValue) :=
  let row0 : List (String × PyValue) := [("topic", .str topic)]
  match payload with
  | .dict d =>
    match aget d "d" with
    | some (.dict dd) =>
      let row := dd.foldl (fun r kv => aset r kv.1 (firstIfList kv.2)) row0
      if amem d "ts" then aset row "ts" ((aget d "ts").getD .none) else row
    | _ => d.foldl (fun r kv => aset r kv.1 kv.2) row0
  | _ => aset row0 "payload" payload

/-! ## TableManager data-column extraction (`table_manager.py`) -/

/-- `analyze_value` in `TableManager._get_data_columns`: `bool` is tested
before `int`, so booleans map to `boolean` here. -/
def analyze_value : PyValue → String
  | .bool _ => "boolean"
  | .int _ => "int"
  | .float _ => "float"
  | .str _ => "string"
  | .dict _ => "json"
  | .list _ => "json"
  | .none => "string"

/-- The `process_dict` loop of `_get_data_columns` (always called with an
empty prefix): skip `topic`/`ingested_at`/`id` (case-insensitively),
nested dicts are `json`, nonempty lists take their first element's type
(`json` for nested containers), empty lists are `json` via
`analyze_value`, and scalars are classified by `analyze_value`. -/
def processDataDict (obj : List (String × PyValue)) : List (String × String) :=
  obj.foldl
    (fun cols kv =>
      if strLower kv.1 = "topic" ∨ strLower kv.1 = "ingested_at" ∨ strLower kv.1 = "id" then
        cols
      else
        match kv.2 with
        | .dict _ => aset cols kv.1 "json"
        | .list (v :: _) =>
          match v with
          | .dict _ => aset cols kv.1 "json"
          | .list _ => aset cols kv.1 "json"
          | _ => aset cols kv.1 (analyze_value v)
        | v => aset cols kv.1 (analyze_value v))
    []

/-- `TableManager._get_data_columns`: process the `d` envelope (plus
`ts: string`) when present, else the flat structure; non-dict messages
yield no columns. -/
def get_data_columns (message : PyValue) : List (String × String) :=
  match message with
  | .dict d =>
    match aget d "d" with
    | some (.dict dd) =>
      let cols := processDataDict dd
      if amem d "ts" then aset cols "ts" "string" else cols
    | _ => processDataDict d
  | _ => []

/-! ## DataTransformer `combine_decimal` (`data_transformer.py`) -/

/-- The `combine_decimal` action configuration (`action.get(...)`:
`none` models an absent key, and Python's `all([...])` guard treats an
empty string like an absent one). -/
structure CombineDecimalAction where
  integer_field : Option String
  fractional_field : Option String
  target_field : Option String
  remove_fractional : Bool

/-- `DataTransformer._combine_decimal_parts`: guard the three field
names, require both source fields present, convert both to `int`
(failure returns the data unchanged, as the `except` clause does), write
`integer + fractional / 10 ** len(str(fractional))` to the target and
optionally drop the fractional field. -/
def combine_decimal_parts (data : List (String × PyValue))
    (a : CombineDecimalAction) : List (String × PyValue) :=
  match a.integer_field, a.fractional_field, a.target_field with
  | some i, some f, some t =>
    if i = "" ∨ f = "" ∨ t = "" then data
    else if ¬(amem data i ∧ amem data f) then data
    else
      match (aget data i).bind pyToInt, (aget data f).bind pyToInt with
      | some ip, some fp =>
        let decimal_places := (toString fp).length
        let combined : ℚ := (ip : ℚ) + (fp : ℚ) / (10 ^ decimal_places : ℚ)
        let result := aset data t (.float combined)
        if a.remove_fractional ∧ amem result f then adel result f else result
      | _, _ => data
  | _, _, _ => data

/-! ## DeviceMapper (`device_mapper.py`) -/

/-- One row of the `device_mapper` table (timestamps as abstract ticks). -/
structure MapperRow where
  table_name : String
  pattern_name : Option String
  device_name : Option String
  first_seen : Nat
  last_seen : Nat
  message_count : Nat

/-- The device registry keyed by the unique `(topic, device_id)` pair. -/
abbrev Registry : Type := List ((String × String) × MapperRow)

/-- `DeviceMapper.register_device`.  `fail` models a database exception
anywhere inside the `engine.begin()` transaction: the transaction rolls
back (state unchanged) and the handler returns `False`.  Otherwise an
existing row is updated in place (`device_name or existing.device_name`
keeps the old name when none is supplied) returning `False`, or a new
row is inserted with `message_count = 1` returning `True`. -/
def register_device (st : Registry) (topic device_id table_name : String)
    (pattern_name device_name : Option String) (fail : Bool) (now : Nat) :
    Registry × Bool :=
  if fail then (st, false)
  else
    match aget st (topic, device_id) with
    | some existing =>
      (aset st (topic, device_id)
        { table_name := table_name
          pattern_name := pattern_name
          device_name := device_name.orElse (fun _ => existing.device_name)
          first_seen := existing.first_seen
          last_seen := now
          message_count := existing.message_count + 1 }, false)
    | Option.none =>
      (st ++ [((topic, device_id),
        { table_name := table_name
          pattern_name := pattern_name
          device_name := device_name
          first_seen := now
          last_seen := now
          message_count := 1 })], true)

/-! ## Consecutive differences (`Router._calculate_differences`) -/

/-- The metadata fields excluded from numeric extraction in both
difference engines. -/
def isMetaKey (k : String) : Bool :=
  k = "topic" ∨ k = "DeviceID" ∨ k = "Date" ∨ k = "Time" ∨ k = "ts" ∨ k = "ingested_at"

/-- Cached state for one `(topic, device_id)` in `Router._last_readings`:
the numeric baseline and the metadata snapshot (the metadata is written
on every call but never read back for output). -/
structure ConsecState where
  data : List (String × ℚ)
  metaDeviceID : Option PyValue
  metaDate : Option PyValue
  metaTime : Option PyValue
  metaTs : Option PyValue

/-- Numeric extraction used when a baseline is initialized: every
non-metadata field that converts to a number. -/
def extractNumericMap (row : List (String × PyValue)) : List (String × ℚ) :=
  row.foldl
    (fun b kv =>
      if isMetaKey kv.1 then b
      else
        match try_convert_to_numeric kv.2 with
        | some q => aset b kv.1 q
        | Option.none => b)
    []

/-- The metadata snapshot `{'DeviceID': row.get('DeviceID'), ...}`. -/
def metaSnapshot (row : List (String × PyValue)) :
    Option PyValue × Option PyValue × Option PyValue × Option PyValue :=
  (aget row "DeviceID", aget row "Date", aget row "Time", aget row "ts")

/-- The head of the difference row: metadata copied from the current row
(`row.get(k)` yields Python `None`, modelled as `PyValue.none`, when the
field is absent). -/
def diffRowHead (topic : String) (row : List (String × PyValue)) :
    List (String × PyValue) :=
  [("topic", .str topic),
   ("DeviceID", (aget row "DeviceID").getD .none),
   ("Date", (aget row "Date").getD .none),
   ("Time", (aget row "Time").getD .none),
   ("ts", (aget row "ts").getD .none)]

/-- One iteration of the difference loop in `_calculate_differences`,
carrying `(diff_row, last_data, differences_found)`. -/
def consecStep (acc : List (String × PyValue) × List (String × ℚ) × Bool)
    (kv : String × PyValue) : List (String × PyValue) × List (String × ℚ) × Bool :=
  if isMetaKey kv.1 then acc
  else
    match try_convert_to_numeric kv.2 with
    | Option.none => acc
    | some cur =>
      match aget acc.2.1 kv.1 with
      | some prev =>
        (aset acc.1 kv.1 (.float (cur - prev)), aset acc.2.1 kv.1 cur, true)
      | Option.none =>
        (aset acc.1 kv.1 (.float cur), aset acc.2.1 kv.1 cur, true)

/-- `Router._calculate_differences` for one `(topic, device_id)` key:
`none` state initializes the baseline and returns no row; otherwise the
difference row is built field by field (overlap: `current − baseline`,
new numeric fields: raw value), the baseline and metadata are updated,
and the row is returned only when at least one difference was found. -/
def calculate_differences (st : Option ConsecState) (topic : String)
    (row : List (String × PyValue)) :
    Option (List (String × PyValue)) × ConsecState :=
  match st with
  | Option.none =>
    let m := metaSnapshot row
    (Option.none,
      { data := extractNumericMap row
        metaDeviceID := m.1, metaDate := m.2.1, metaTime := m.2.2.1, metaTs := m.2.2.2 })
  | some last =>
    let r := row.foldl consecStep (diffRowHead topic row, last.data, false)
    let m := metaSnapshot row
    let st' : ConsecState :=
      { data := r.2.1
        metaDeviceID := m.1, metaDate := m.2.1, metaTime := m.2.2.1, metaTs := m.2.2.2 }
    (if r.2.2 then some r.1 else Option.none, st')

/-- Run a sequence of rows for one key through
`Router._calculate_differences`, collecting the per-call results. -/
def consecRun (topic : String) (rows : List (List (String × PyValue))) :
    List (Option (List (String × PyValue))) × Option ConsecState :=
  rows.foldl
    (fun acc row =>
      let r := calculate_differences acc.2 topic row
      (acc.1 ++ [r.1], some r.2))
    ([], Option.none)

/-! ## Interval differences (`interval_difference_calculator.py`)

Timestamps carry only a time of day: `_extract_timestamp` builds every
result from `datetime.now()`'s date (`now.replace(hour=..., ...)`), so
within one run all timestamps share a date and the rendered interval
boundary string `"%Y-%m-%dT%H:%M"` is injective in the minute of day.
The embedding therefore represents a timestamp as `(hour, minute,
second)` and an interval boundary by its starting minute of day. -/

/-- A parsed timestamp (today's date is implicit). -/
structure PyTime where
  hour : Nat
  minute : Nat
  second : Nat
deriving DecidableEq

/-- Two-digit rendering used by `strftime` fields. -/
def pad2 (n : Nat) : String :=
  if n < 10 then "0" ++ toString n else toString n

/-- `strftime('%H%M%S')`. -/
def strftimeHMS (t : PyTime) : String :=
  pad2 t.hour ++ pad2 t.minute ++ pad2 t.second

/-- Parse one candidate timestamp field: its `str()` must be six digits,
and `now.replace(hour=..., minute=..., second=...)` raises `ValueError`
(caught, continuing with the next field) unless the components are in
range. -/
def parseHHMMSS (s : String) : Option PyTime :=
  if s.length = 6 ∧ s.data.all (·.isDigit) then
    let h := digitsVal (s.data.take 2)
    let m := digitsVal (s.data.drop 2 |>.take 2)
    let sec := digitsVal (s.data.drop 4)
    if h ≤ 23 ∧ m ≤ 59 ∧ sec ≤ 59 then some ⟨h, m, sec⟩ else Option.none
  else Option.none

/-- `_extract_timestamp`: try `ts`, `Time`, `timestamp`, `Date` in order,
taking the first present truthy field whose string form parses as
`HHMMSS`; fall back to the current wall-clock time `now`. -/
def extract_timestamp (row : List (String × PyValue)) (now : PyTime) : PyTime :=
  let tryField : String → Option PyTime := fun k =>
    match aget row k with
    | some v => if pyTruthy v then parseHHMMSS (pyStr v) else Option.none
    | Option.none => Option.none
  (((tryField "ts").orElse fun _ => tryField "Time").orElse fun _ =>
      tryField "timestamp").orElse (fun _ => tryField "Date") |>.getD now

/-- `_calculate_interval_boundary`: floor the minute of day to the
interval frequency (the code renders the result as a date-time string;
the minute of day determines it for the fixed date). -/
def interval_boundary (t : PyTime) (freq : Nat) : Nat :=
  ((t.hour * 60 + t.minute) / freq) * freq

/-- Per-key state in `IntervalDifferenceCalculator._interval_data`. -/
structure IntervalState where
  current_interval : Nat
  current_reading : List (String × ℚ)
  previous_interval_reading : Option (List (String × ℚ))
  frequency_minutes : Nat
  last_timestamp : PyTime
  previous_timestamp : Option PyTime

/-- `_calculate_interval_difference`, called before the state rollover:
metadata, the interval boundary passed by the caller, the `P0`
start/end trackers (defaulting to `0.0`, times rendered `HHMMSS`, empty
when the stored timestamp is absent), then `current − previous` for every
field present in both readings. -/
def calc_interval_difference (topic device_id : String)
    (current_row : List (String × PyValue))
    (current_reading previous_reading : List (String × ℚ))
    (boundary : Nat) (st : IntervalState) : List (String × PyValue) :=
  let base : List (String × PyValue) :=
    [("topic", .str topic),
     ("DeviceID", .str device_id),
     ("Date", (aget current_row "Date").getD .none),
     ("Time", (aget current_row "Time").getD .none),
     ("ts", (aget current_row "ts").getD .none),
     ("interval_boundary", .int (boundary : Int)),
     ("start_P0_value", .float ((aget previous_reading "P0").getD 0)),
     ("start_P0_time", .str (match st.previous_timestamp with
        | some t => strftimeHMS t
        | Option.none => "")),
     ("end_P0_value", .float ((aget current_reading "P0").getD 0)),
     ("end_P0_time", .str (strftimeHMS st.last_timestamp))]
  current_reading.foldl
    (fun dr kv =>
      match aget previous_reading kv.1 with
      | some prev => aset dr kv.1 (.float (kv.2 - prev))
      | Option.none => dr)
    base

/-- `IntervalDifferenceCalculator.process_reading` for one key.  The
timestamp always parses (the source falls back to `datetime.now()`), so
the `if not timestamp` guard is dead; rows without numeric fields return
early leaving the state untouched.  On a transition with a previous
reading present, the difference row is computed with the *pre-rollover*
state — in particular the boundary passed is the closed interval's key —
and then current is promoted to previous and the new interval begins. -/
def process_reading (st : Option IntervalState) (topic device_id : String)
    (row : List (String × PyValue)) (freq : Nat) (now : PyTime) :
    Option (List (String × PyValue)) × Option IntervalState :=
  let timestamp := extract_timestamp row now
  let current_interval := interval_boundary timestamp freq
  let numeric_data := extractNumericMap row
  if numeric_data.isEmpty then (Option.none, st)
  else
    match st with
    | Option.none =>
      (Option.none, some
        { current_interval := current_interval
          current_reading := numeric_data
          previous_interval_reading := Option.none
          frequency_minutes := freq
          last_timestamp := timestamp
          previous_timestamp := Option.none })
    | some info =>
      if info.current_interval = current_interval then
        (Option.none, some { info with
          current_reading := numeric_data
          last_timestamp := timestamp })
      else
        match info.previous_interval_reading with
        | some prev =>
          let dr := calc_interval_difference topic device_id row
            info.current_reading prev info.current_interval info
          (some dr, some
            { current_interval := current_interval
              current_reading := numeric_data
              previous_interval_reading := some info.current_reading
              frequency_minutes := info.frequency_minutes
              last_timestamp := timestamp
              previous_timestamp := some info.last_timestamp })
        | Option.none =>
          (Option.none, some
            { current_interval := current_interval
              current_reading := numeric_data
              previous_interval_reading := some info.current_reading
              frequency_minutes := info.frequency_minutes
              last_timestamp := timestamp
              previous_timestamp := some info.last_timestamp })

/-- Run a sequence of rows for one key through `process_reading` from a
given state, collecting the per-call results. -/
def intervalRunFrom (topic device_id : String) (freq : Nat) (now : PyTime)
    (st : Option IntervalState) :
    List (List (String × PyValue)) → List (Option (List (String × PyValue)))
  | [] => []
  | r :: rest =>
    let p := process_reading st topic device_id r freq now
    p.1 :: intervalRunFrom topic device_id freq now p.2 rest

/-- Run a sequence of rows for one key through `process_reading` starting
with no cached state. -/
def intervalRun (topic device_id : String)
    (rows : List (List (String × PyValue))) (freq : Nat) (now : PyTime) :
    List (Option (List (String × PyValue))) :=
  intervalRunFrom topic device_id freq now Option.none rows

/-- Spec-side description of the interval emission pattern for an ordered
run: given the first sample's interval key `k0` and the previous sample's
key `kprev`, a sample with key `k` emits nothing while still in the same
interval (`k = kprev`) or while only the warmup interval has been seen
(`kprev = k0`); otherwise it emits exactly one row labelled with the
closed interval's key `kprev`. -/
def specIntervalSeq (k0 kprev : Nat) : List Nat → List (Option Nat)
  | [] => []
  | k :: rest =>
    (if k = kprev then Option.none
     else if kprev = k0 then Option.none
     else some kprev) :: specIntervalSeq k0 k rest

/-! ## Router (`router.py`): device-id extraction and the derivation slice -/

/-- `Router._extract_device_id`, methods 1–5 in source order. -/
def extract_device_id (payload : PyValue)
    (row_data : Option (List (String × PyValue))) : Option String :=
  let m1 : Option String :=
    match payload with
    | .dict d => (aget d "DeviceID").map pyStr
    | _ => Option.none
  let m2 : Option String :=
    match dEnvelope payload with
    | some dd =>
      (aget dd "DeviceID").map (fun v =>
        match v with
        | .list (x :: _) => pyStr x
        | v => pyStr v)
    | Option.none => Option.none
  let m3 : Option String :=
    match row_data with
    | some r => (aget r "DeviceID").map pyStr
    | Option.none => Option.none
  let m4 : Option String :=
    match payload with
    | .dict d =>
      (d.find? (fun kv =>
        strLower kv.1 = "deviceid" ∨ strLower kv.1 = "device_id" ∨
          strLower kv.1 = "device")).map (fun kv => pyStr kv.2)
    | _ => Option.none
  let m5 : Option String :=
    match dEnvelope payload with
    | some dd =>
      (dd.find? (fun kv =>
        strLower kv.1 = "deviceid" ∨ strLower kv.1 = "device_id" ∨
          strLower kv.1 = "device")).map (fun kv =>
        match kv.2 with
        | .list (x :: _) => pyStr x
        | v => pyStr v)
    | Option.none => Option.none
  (((m1.orElse fun _ => m2).orElse fun _ => m3).orElse fun _ => m4).orElse
    fun _ => m5

/-- An `interval_difference` configuration block (absent keys are
`none`). -/
structure IntervalCfg where
  enabled : Option Bool
  frequency_minutes : Option Nat
  table_suffix : Option String

/-- `dict.update` of a configuration block over `(enabled,
frequency_minutes, table_suffix)`. -/
def applyCfg (c : IntervalCfg) (base : Bool × Nat × String) : Bool × Nat × String :=
  (c.enabled.getD base.1, c.frequency_minutes.getD base.2.1,
    c.table_suffix.getD base.2.2)

/-- `Router._get_interval_config`: defaults `{enabled: false,
frequency_minutes: 5, table_suffix: "_interval_diff"}`, overridden by the
route-level block when the topic has one, then by the device rule's
block; a rule block alone also applies over the defaults. -/
def get_interval_config (routeIC ruleIC : Option IntervalCfg) : Bool × Nat × String :=
  let dflt : Bool × Nat × String := (false, 5, "_interval_diff")
  match routeIC with
  | some rc =>
    match ruleIC with
    | some uc => applyCfg uc (applyCfg rc dflt)
    | Option.none => applyCfg rc dflt
  | Option.none =>
    match ruleIC with
    | some uc => applyCfg uc dflt
    | Option.none => dflt

/-- The cache key `f"{topic}:{device_id}"`. -/
def mkCacheKey (topic device_id : String) : String :=
  topic ++ ":" ++ device_id

/-- The process-level state touched by the router slice below. -/
structure RouteState where
  consec : List (String × ConsecState)
  interval : List (String × IntervalState)
  registry : Registry
  inserts : List (String × List (String × PyValue))

/-- The value returned by `Router.route` (the `baseline` flag models the
presence of `'baseline': True` in the returned dict). -/
structure RouteResult where
  table : String
  pattern : String
  columns : List (String × String)
  baseline : Bool

/-- The auto-mode branch of `Router.route`, lines 379–471 of
`router.py`, with the database-dependent table-name resolution
(`TableManager.get_or_create_table_name`) abstracted as the already
resolved `table_name`, and `db.insert`/`register_device` recorded in the
`RouteState`.  The matched-pattern branch (lines 280–376) has the same
derivation structure.  No raw base-table insert exists in either branch
(the original call is commented out in source). -/
def route_auto (st : RouteState) (topic : String) (payload : PyValue)
    (table_name : String) (routeIC ruleIC : Option IntervalCfg)
    (now : PyTime) (nowTick : Nat) : RouteState × RouteResult :=
  let auto_columns := derive_columns_auto payload
  let row := to_row_auto topic payload
  match extract_device_id payload (some row) with
  | some device_id =>
    let ckey := mkCacheKey topic device_id
    let cres := calculate_differences (aget st.consec ckey) topic row
    let st1 : RouteState := { st with consec := aset st.consec ckey cres.2 }
    let st2 : RouteState :=
      match cres.1 with
      | some dr =>
        let diff_table := table_name ++ "_diff"
        let reg := register_device st1.registry topic device_id diff_table
          (some "auto") Option.none false nowTick
        { st1 with
          inserts := st1.inserts ++ [(diff_table, dr)]
          registry := reg.1 }
      | Option.none => st1
    let cfg := get_interval_config routeIC ruleIC
    let ires : Option (List (String × PyValue)) × RouteState :=
      if cfg.1 then
        let r := process_reading (aget st2.interval ckey) topic device_id row cfg.2.1 now
        (r.1, { st2 with interval :=
          match r.2 with
          | some is => aset st2.interval ckey is
          | Option.none => st2.interval })
      else (Option.none, st2)
    let st3 : RouteState :=
      match ires.1 with
      | some ir =>
        let interval_table := table_name ++ cfg.2.2
        let reg := register_device ires.2.registry topic device_id interval_table
          (some "auto_interval") Option.none false nowTick
        { ires.2 with
          inserts := ires.2.inserts ++ [(interval_table, ir)]
          registry := reg.1 }
      | Option.none => ires.2
    if cres.1.isSome ∨ ires.1.isSome then
      (st3, ⟨table_name, "auto", auto_columns, false⟩)
    else
      (st3, ⟨table_name, "auto", auto_columns, true⟩)
  | Option.none =>
    (st, ⟨table_name, "auto", auto_columns, false⟩)

/-! ## Proofs: MQTT filter matching (C7) -/

lemma filterLoop_eq_specLevels (fs ts : List String) :
    filterLoop fs ts = mqttSpecLevels fs ts := by
  induction fs generalizing ts with
  | nil => cases ts <;> simp [filterLoop, mqttSpecLevels]
  | cons f fs ih =>
    by_cases hf : f = "#"
    · subst hf
      cases fs with
      | nil => simp [filterLoop, mqttSpecLevels]
      | cons g gs => simp [filterLoop, mqttSpecLevels]
    · have hf' : "#" ≠ f := fun h => hf h.symm
      cases ts with
      | nil =>
        have hstep : filterLoop (f :: fs) [] = false := by
          simp [filterLoop, hf]
        rw [hstep]
        cases fs with
        | nil =>
          rw [Bool.eq_iff_iff]
          simp [mqttSpecLevels, hf']
        | cons g gs =>
          by_cases hm : "#" ∈ g :: gs
          · rw [Bool.eq_iff_iff]
            simp [mqttSpecLevels, hf', hm]
          · rw [Bool.eq_iff_iff]
            simp [mqttSpecLevels, hf', hm]
      | cons t ts' =>
        have hstep : filterLoop (f :: fs) (t :: ts') =
            ((decide (f = "+") || decide (f = t)) && filterLoop fs ts') := by
          simp [filterLoop, hf]
        rw [hstep, ih ts']
        cases fs with
        | nil =>
          cases ts' with
          | nil =>
            rw [Bool.eq_iff_iff]
            simp [mqttSpecLevels, hf']
          | cons u us =>
            rw [Bool.eq_iff_iff]
            simp [mqttSpecLevels, hf']
        | cons g gs =>
          by_cases hm : "#" ∈ g :: gs
          · rw [Bool.eq_iff_iff]
            simp [mqttSpecLevels, hf', hm, Nat.succ_le_succ_iff]
            tauto
          · rw [Bool.eq_iff_iff]
            simp [mqttSpecLevels, hf', hm]
            tauto

/-- C7: `_topic_filter_matches` decides exactly MQTT filter semantics as
stated in the claim: identical strings always match, `+` matches one
level, `#` matches all remaining levels and only as the last filter
level, and otherwise levels must agree pairwise with equal counts. -/
theorem topic_filter_matches_iff_mqtt_spec (filter_str topic : String) :
    topic_filter_matches filter_str topic = mqttSpecMatches filter_str topic := by
  unfold topic_filter_matches mqttSpecMatches
  by_cases h : filter_str = topic
  · simp [h]
  · simp [h, filterLoop_eq_specLevels]

/-! ## Proofs: topic sanitization idempotence (C8) -/

/-- No two adjacent underscores. -/
def noDoubleUnderscore (l : List Char) : Prop :=
  l.Chain' (fun a b => ¬(a = '_' ∧ b = '_'))

lemma collapse_cons_ne {d : Char} (rest : List Char) (h : d ≠ '_') :
    collapseUnderscores (d :: rest) = d :: collapseUnderscores rest := by
  cases rest with
  | nil => simp [collapseUnderscores]
  | cons e rest' =>
    have : ¬(d = '_' ∧ e = '_') := fun hc => h hc.1
    simp [collapseUnderscores, this]

lemma collapse_noDouble (l : List Char) : noDoubleUnderscore (collapseUnderscores l) := by
  induction l with
  | nil => simp [collapseUnderscores, noDoubleUnderscore]
  | cons c l ih =>
    cases l with
    | nil => simp [collapseUnderscores, noDoubleUnderscore]
    | cons d rest =>
      by_cases hc : c = '_' ∧ d = '_'
      · simpa [collapseUnderscores, hc] using ih
      · simp only [collapseUnderscores, if_neg hc]
        by_cases hcu : c = '_'
        · have hd : d ≠ '_' := fun h => hc ⟨hcu, h⟩
          rw [collapse_cons_ne rest hd] at ih ⊢
          exact List.Chain'.cons (fun h => hd h.2) ih
        · refine List.chain'_cons'.mpr ⟨fun y _ => fun h => hcu h.1, ih⟩

lemma collapse_id_of_noDouble {l : List Char} (h : noDoubleUnderscore l) :
    collapseUnderscores l = l := by
  induction l with
  | nil => rfl
  | cons c l ih =>
    cases l with
    | nil => rfl
    | cons d rest =>
      have h1 : ¬(c = '_' ∧ d = '_') := (List.chain'_cons.mp h).1
      have h2 : noDoubleUnderscore (d :: rest) := (List.chain'_cons.mp h).2
      simp [collapseUnderscores, h1, ih h2]

lemma collapse_mem {l : List Char} {c : Char} (h : c ∈ collapseUnderscores l) :
    c ∈ l := by
  induction l with
  | nil => simp [collapseUnderscores] at h
  | cons a l ih =>
    cases l with
    | nil => simpa [collapseUnderscores] using h
    | cons d rest =>
      by_cases hc : a = '_' ∧ d = '_'
      · simp only [collapseUnderscores, if_pos hc] at h
        exact List.mem_cons_of_mem _ (ih h)
      · simp only [collapseUnderscores, if_neg hc] at h
        rcases List.mem_cons.mp h with h | h
        · exact h ▸ List.mem_cons_self _ _
        · exact List.mem_cons_of_mem _ (ih h)

lemma dropWhile_mem {p : Char → Bool} {l : List Char} {c : Char}
    (h : c ∈ l.dropWhile p) : c ∈ l :=
  List.IsSuffix.mem h (List.dropWhile_suffix p)

lemma strip_mem {l : List Char} {c : Char} (h : c ∈ stripUnderscores l) : c ∈ l := by
  unfold stripUnderscores at h
  rw [List.mem_reverse] at h
  have := dropWhile_mem h
  rw [List.mem_reverse] at this
  exact dropWhile_mem this

lemma noDouble_dropWhile {p : Char → Bool} {l : List Char}
    (h : noDoubleUnderscore l) : noDoubleUnderscore (l.dropWhile p) := by
  induction l with
  | nil => simpa using h
  | cons c l ih =>
    by_cases hp : p c
    · simp only [List.dropWhile_cons, hp, if_pos rfl]
      exact ih (List.Chain'.tail h)
    · simpa [List.dropWhile_cons, hp] using h

lemma noDouble_reverse {l : List Char} (h : noDoubleUnderscore l) :
    noDoubleUnderscore l.reverse := by
  unfold noDoubleUnderscore at h ⊢
  rw [List.chain'_reverse]
  exact h.imp (fun _ _ hab h => hab ⟨h.2, h.1⟩)

lemma noDouble_strip {l : List Char} (h : noDoubleUnderscore l) :
    noDoubleUnderscore (stripUnderscores l) := by
  unfold stripUnderscores
  exact noDouble_reverse (noDouble_dropWhile (noDouble_reverse (noDouble_dropWhile h)))

lemma head_dropWhile {p : Char → Bool} (l : List Char) :
    ∀ c ∈ (l.dropWhile p).head?, p c = false := by
  induction l with
  | nil => simp
  | cons a l ih =>
    by_cases hp : p a
    · rw [List.dropWhile_cons_of_pos hp]
      exact ih
    · rw [List.dropWhile_cons_of_neg hp]
      intro c hc
      simp only [List.head?_cons, Option.mem_def, Option.some.injEq] at hc
      subst hc
      exact Bool.eq_false_iff.mpr hp

lemma getLast_dropWhile {p : Char → Bool} (l : List Char)
    (h : l.dropWhile p ≠ []) : (l.dropWhile p).getLast? = l.getLast? := by
  induction l with
  | nil => simp at h
  | cons a l ih =>
    by_cases hp : p a
    · rw [List.dropWhile_cons_of_pos hp] at h ⊢
      have hl : l ≠ [] := by
        intro he; subst he; simp [List.dropWhile] at h
      rw [ih h]
      cases l with
      | nil => exact absurd rfl hl
      | cons b l' => rw [List.getLast?_cons_cons]
    · rw [List.dropWhile_cons_of_neg hp]

lemma dropWhile_id_of_head {p : Char → Bool} {l : List Char}
    (h : ∀ c ∈ l.head?, p c = false) : l.dropWhile p = l := by
  cases l with
  | nil => rfl
  | cons a l =>
    have := h a (by simp)
    simp [List.dropWhile_cons, this]

lemma strip_head {l : List Char} :
    ∀ c ∈ (stripUnderscores l).head?, (c == '_') = false := by
  intro c hc
  unfold stripUnderscores at hc
  rw [List.head?_reverse] at hc
  by_cases hY : (l.dropWhile (· == '_')).reverse.dropWhile (· == '_') = []
  · rw [hY] at hc; simp at hc
  · rw [getLast_dropWhile _ hY, List.getLast?_reverse] at hc
    exact head_dropWhile l c hc

lemma strip_getLast {l : List Char} :
    ∀ c ∈ (stripUnderscores l).getLast?, (c == '_') = false := by
  unfold stripUnderscores
  intro c hc
  rw [List.getLast?_reverse] at hc
  exact head_dropWhile _ c hc

lemma strip_id_of_ends {l : List Char}
    (h1 : ∀ c ∈ l.head?, (c == '_') = false)
    (h2 : ∀ c ∈ l.getLast?, (c == '_') = false) :
    stripUnderscores l = l := by
  unfold stripUnderscores
  rw [dropWhile_id_of_head h1]
  have : ∀ c ∈ l.reverse.head?, (c == '_') = false := by
    intro c hc; rw [List.head?_reverse] at hc; exact h2 c hc
  rw [dropWhile_id_of_head this, List.reverse_reverse]

lemma safeChar_underscore : safeChar '_' = true := by decide

lemma replaceBad_safe {l : List Char} {c : Char} (h : c ∈ replaceBadChars l) :
    safeChar c = true := by
  unfold replaceBadChars at h
  rcases List.mem_map.mp h with ⟨a, _, ha⟩
  by_cases hs : safeChar a
  · rw [if_pos hs] at ha; exact ha ▸ hs
  · rw [if_neg hs] at ha; exact ha ▸ safeChar_underscore

lemma pyLowerChar_safe {c : Char} (h : safeChar c = true) : pyLowerChar c = c := by
  unfold pyLowerChar
  rw [if_neg]
  intro ⟨hA, hZ⟩
  unfold safeChar at h
  rcases Bool.or_eq_true_iff.mp h with h | h
  · rcases Bool.or_eq_true_iff.mp h with h | h
    · have ha : 'a' ≤ c := by
        have := Bool.and_eq_true_iff.mp h
        exact of_decide_eq_true this.1
      exact absurd (le_trans ha hZ) (by decide)
    · have h9 : c ≤ '9' := by
        have := Bool.and_eq_true_iff.mp h
        exact of_decide_eq_true this.2
      exact absurd (le_trans hA h9) (by decide)
  · have : c = '_' := by simpa using h
    subst this
    exact absurd hZ (by decide)

lemma map_id_of_forall {α : Type} {l : List α} {f : α → α}
    (h : ∀ c ∈ l, f c = c) : l.map f = l := by
  induction l with
  | nil => rfl
  | cons a l ih =>
    rw [List.map_cons, h a (List.mem_cons_self a l),
      ih fun c hc => h c (List.mem_cons_of_mem a hc)]

lemma replaceBad_safe_id {l : List Char} (h : ∀ c ∈ l, safeChar c = true) :
    replaceBadChars l = l := by
  unfold replaceBadChars
  exact map_id_of_forall fun c hc => if_pos (h c hc)

lemma safe_topic_chars {s : String} {c : Char} (h : c ∈ (safe_topic s).data) :
    safeChar c = true := by
  unfold safe_topic at h
  exact replaceBad_safe (collapse_mem (strip_mem h))

/-- C8: topic sanitization is idempotent. -/
theorem safe_topic_idempotent (s : String) :
    safe_topic (safe_topic s) = safe_topic s := by
  have hsafe : ∀ c ∈ (safe_topic s).data, safeChar c = true :=
    fun c hc => safe_topic_chars hc
  have hlower : (safe_topic s).data.map pyLowerChar = (safe_topic s).data :=
    map_id_of_forall fun c hc => pyLowerChar_safe (hsafe c hc)
  have hnd : noDoubleUnderscore (safe_topic s).data := by
    unfold safe_topic
    exact noDouble_strip (collapse_noDouble _)
  have hh : ∀ c ∈ (safe_topic s).data.head?, (c == '_') = false := by
    unfold safe_topic
    exact fun c hc => strip_head c hc
  have hg : ∀ c ∈ (safe_topic s).data.getLast?, (c == '_') = false := by
    unfold safe_topic
    exact fun c hc => strip_getLast c hc
  show String.mk (stripUnderscores (collapseUnderscores (replaceBadChars
    ((safe_topic s).data.map pyLowerChar)))) = safe_topic s
  rw [hlower, replaceBad_safe_id hsafe, collapse_id_of_noDouble hnd,
    strip_id_of_ends hh hg]

/-! ## Association-list lemmas -/

lemma aget_aset_self {κ β : Type} [DecidableEq κ] (d : List (κ × β)) (k : κ) (v : β) :
    aget (aset d k v) k = some v := by
  induction d with
  | nil => simp [aset, aget]
  | cons kv d ih =>
    obtain ⟨k1, w⟩ := kv
    by_cases h : k1 = k
    · simp [aset, h, aget]
    · simp [aset, h, aget, ih]

lemma aget_aset_ne {κ β : Type} [DecidableEq κ] (d : List (κ × β)) {k k' : κ} (v : β)
    (h : k' ≠ k) : aget (aset d k v) k' = aget d k' := by
  have h' : ¬(k = k') := fun hh => h hh.symm
  induction d with
  | nil => simp [aset, aget, h']
  | cons kv d ih =>
    obtain ⟨k1, w⟩ := kv
    by_cases h1 : k1 = k
    · subst h1
      simp [aset, aget, h']
    · simp only [aset, if_neg h1]
      by_cases h2 : k1 = k'
      · simp [aget, h2]
      · simp [aget, h2, ih]

lemma aget_adel_ne {κ β : Type} [DecidableEq κ] (d : List (κ × β)) {k k' : κ}
    (h : k' ≠ k) : aget (adel d k) k' = aget d k' := by
  have h' : ¬(k = k') := fun hh => h hh.symm
  induction d with
  | nil => simp [adel]
  | cons kv d ih =>
    obtain ⟨k1, w⟩ := kv
    by_cases h1 : k1 = k
    · subst h1
      simp [adel, aget, h']
    · by_cases h2 : k1 = k'
      · simp [adel, aget, h1, h2, h, h']
      · simp [adel, aget, h1, h2, ih]

lemma aget_eq_none_of_not_mem {κ β : Type} [DecidableEq κ] {d : List (κ × β)} {k : κ}
    (h : k ∉ d.map Prod.fst) : aget d k = Option.none := by
  induction d with
  | nil => rfl
  | cons kv d ih =>
    obtain ⟨k1, w⟩ := kv
    simp only [List.map_cons, List.mem_cons] at h
    push_neg at h
    have h1 : ¬(k1 = k) := fun hh => h.1 hh.symm
    simp [aget, h1, ih h.2]

lemma aget_adel_self_of_nodup {κ β : Type} [DecidableEq κ] {d : List (κ × β)} (k : κ)
    (hnd : (d.map Prod.fst).Nodup) : aget (adel d k) k = Option.none := by
  induction d with
  | nil => rfl
  | cons kv d ih =>
    obtain ⟨k1, w⟩ := kv
    simp only [List.map_cons, List.nodup_cons] at hnd
    by_cases h1 : k1 = k
    · subst h1
      simp only [adel, if_pos rfl]
      exact aget_eq_none_of_not_mem hnd.1
    · simp [adel, aget, h1, ih hnd.2]

lemma aget_append {κ β : Type} [DecidableEq κ] (d1 d2 : List (κ × β)) (k : κ) :
    aget (d1 ++ d2) k = ((aget d1 k).orElse fun _ => aget d2 k) := by
  induction d1 with
  | nil => simp [aget]
  | cons kv d ih =>
    obtain ⟨k1, w⟩ := kv
    by_cases h : k1 = k
    · simp [aget, h]
    · simp [aget, h, ih]

lemma mem_keys_aset {κ β : Type} [DecidableEq κ] {d : List (κ × β)} {k x : κ} {v : β}
    (h : x ∈ (aset d k v).map Prod.fst) : x ∈ d.map Prod.fst ∨ x = k := by
  induction d with
  | nil => simpa [aset] using h
  | cons kv d ih =>
    obtain ⟨k1, w⟩ := kv
    by_cases h1 : k1 = k
    · subst h1
      have hs : aset ((k1, w) :: d) k1 v = (k1, v) :: d := by simp [aset]
      rw [hs] at h
      simp only [List.map_cons, List.mem_cons] at h ⊢
      tauto
    · simp only [aset, if_neg h1, List.map_cons, List.mem_cons] at h ⊢
      rcases h with h | h
      · exact Or.inl (Or.inl h)
      · rcases ih h with h | h
        · exact Or.inl (Or.inr h)
        · exact Or.inr h

lemma nodup_keys_aset {κ β : Type} [DecidableEq κ] {d : List (κ × β)} (k : κ) (v : β)
    (hnd : (d.map Prod.fst).Nodup) : ((aset d k v).map Prod.fst).Nodup := by
  induction d with
  | nil => simp [aset]
  | cons kv d ih =>
    obtain ⟨k1, w⟩ := kv
    simp only [List.map_cons, List.nodup_cons] at hnd
    by_cases h1 : k1 = k
    · subst h1
      have hs : aset ((k1, w) :: d) k1 v = (k1, v) :: d := by simp [aset]
      rw [hs, List.map_cons, List.nodup_cons]
      exact hnd
    · simp only [aset, if_neg h1, List.map_cons, List.nodup_cons]
      refine ⟨fun hin => ?_, ih hnd.2⟩
      rcases mem_keys_aset hin with h | h
      · exact hnd.1 h
      · exact h1 h

/-! ## Proofs: DeviceMapper registration (C9) -/

/-- C9: `register_device` returns `True` exactly when it inserts a new
`(topic, device_id)` row — no database failure and no existing row; an
in-place update and a failed transaction both return `False` (so `False`
does not distinguish them), and a failed transaction leaves the registry
unchanged. -/
theorem register_device_true_iff_new (st : Registry) (topic device_id table : String)
    (pat dn : Option String) (fail : Bool) (now : Nat) :
    ((register_device st topic device_id table pat dn fail now).2 = true ↔
      fail = false ∧ aget st (topic, device_id) = Option.none) ∧
    (fail = true → register_device st topic device_id table pat dn fail now = (st, false)) := by
  unfold register_device
  cases fail
  · cases h : aget st (topic, device_id) <;> simp [h]
  · simp

/-! ## Proofs: combine_decimal (C6) -/

/-- C6: with both source fields present and convertible to `int`,
`combine_decimal` writes `integer + fractional / 10 ^ D` to the target
field, `D` being the digit count of the fractional part's string form,
and drops the fractional field exactly when `remove_fractional` is set;
a non-convertible operand leaves the data unchanged. -/
theorem combine_decimal_spec (data : List (String × PyValue)) (i f t : String)
    (rm : Bool) (hnd : (data.map Prod.fst).Nodup) (hi : i ≠ "") (hf : f ≠ "")
    (ht : t ≠ "") (htf : t ≠ f) :
    (∀ vi vf ip fp, aget data i = some vi → aget data f = some vf →
      pyToInt vi = some ip → pyToInt vf = some fp →
      aget (combine_decimal_parts data ⟨some i, some f, some t, rm⟩) t =
        some (.float ((ip : ℚ) + (fp : ℚ) / (10 ^ (toString fp).length : ℚ))) ∧
      amem (combine_decimal_parts data ⟨some i, some f, some t, rm⟩) f = !rm) ∧
    (∀ vi, aget data i = some vi → pyToInt vi = Option.none →
      combine_decimal_parts data ⟨some i, some f, some t, rm⟩ = data) ∧
    (∀ vf, aget data f = some vf → pyToInt vf = Option.none →
      combine_decimal_parts data ⟨some i, some f, some t, rm⟩ = data) := by
  have hguard : ¬(i = "" ∨ f = "" ∨ t = "") := by simp [hi, hf, ht]
  refine ⟨?_, ?_, ?_⟩
  · intro vi vf ip fp hvi hvf hip hfp
    have hmi : amem data i = true := by simp [amem, hvi]
    have hmf : amem data f = true := by simp [amem, hvf]
    simp only [combine_decimal_parts]
    rw [if_neg hguard, if_neg (not_not_intro ⟨hmi, hmf⟩), hvi, hvf]
    simp only [Option.some_bind, hip, hfp]
    set cf : PyValue := .float ((ip : ℚ) + (fp : ℚ) / (10 ^ (toString fp).length : ℚ))
      with hcf
    have hsetf : aget (aset data t cf) f = some vf := by
      rw [aget_aset_ne data cf (fun h => htf h.symm), hvf]
    have hsetmem : amem (aset data t cf) f = true := by simp [amem, hsetf]
    cases rm
    · simp only [Bool.not_false]
      rw [if_neg (by simp)]
      exact ⟨aget_aset_self data t cf, hsetmem⟩
    · simp only [Bool.not_true]
      rw [if_pos ⟨trivial, hsetmem⟩]
      constructor
      · rw [aget_adel_ne _ htf, aget_aset_self]
      · have : aget (adel (aset data t cf) f) f = Option.none :=
          aget_adel_self_of_nodup f (nodup_keys_aset t cf hnd)
        simp [amem, this]
  · intro vi hvi hip
    simp only [combine_decimal_parts]
    rw [if_neg hguard]
    by_cases hmi : amem data i = true
    · by_cases hmf : amem data f = true
      · rw [if_neg (not_not_intro ⟨hmi, hmf⟩), hvi]
        simp only [Option.some_bind, hip]
      · rw [if_pos (by simp [hmf])]
    · rw [if_pos (by simp [hmi])]
  · intro vf hvf hfp
    simp only [combine_decimal_parts]
    rw [if_neg hguard]
    by_cases hmi : amem data i = true
    · have hmf : amem data f = true := by simp [amem, hvf]
      rw [if_neg (not_not_intro ⟨hmi, hmf⟩), hvf]
      simp only [Option.some_bind, hfp]
      cases (aget data i).bind pyToInt <;> rfl
    · rw [if_pos (by simp [hmi])]

/-- Witness for C6 (spec scenario 3): `P0 = 12345`, `P1 = 81723`,
target `P0`, fractional removed. -/
theorem combine_decimal_spec_witness :
    aget (combine_decimal_parts [("P0", PyValue.int 12345), ("P1", PyValue.int 81723)]
        ⟨some "P0", some "P1", some "P0", true⟩) "P0" =
      some (.float ((12345 : ℚ) + (81723 : ℚ) / (10 ^ (toString (81723 : Int)).length : ℚ))) ∧
    amem (combine_decimal_parts [("P0", PyValue.int 12345), ("P1", PyValue.int 81723)]
        ⟨some "P0", some "P1", some "P0", true⟩) "P1" = !true :=
  (combine_decimal_spec [("P0", PyValue.int 12345), ("P1", PyValue.int 81723)]
      "P0" "P1" "P0" true (by simp) (by simp) (by simp) (by simp) (by simp)).1
    (.int 12345) (.int 81723) 12345 81723 rfl rfl rfl rfl

/-! ## Proofs: auto-mode column typing (C5) -/

lemma not_isSome_aget {κ β : Type} [DecidableEq κ] {d : List (κ × β)} {k : κ}
    (h : ¬amem d k = true) : aget d k = Option.none := by
  unfold amem at h
  exact Option.not_isSome_iff_eq_none.mp (by simpa using h)

lemma derive_flat_fold_aget (d : List (String × PyValue))
    (cols : List (String × String)) (k : String) :
    aget (d.foldl (fun cols kv =>
        if amem cols kv.1 then cols else cols ++ [(kv.1, inferTypeAuto kv.2)]) cols) k =
      (match aget cols k with
       | some c => some c
       | Option.none => (aget d k).map inferTypeAuto) := by
  induction d generalizing cols with
  | nil => cases h : aget cols k <;> simp [aget, h]
  | cons kv d ih =>
    obtain ⟨k1, v⟩ := kv
    simp only [List.foldl_cons]
    by_cases hm : amem cols k1 = true
    · rw [if_pos hm, ih]
      by_cases hk : k1 = k
      · subst hk
        obtain ⟨c, hc⟩ := Option.isSome_iff_exists.mp (by simpa [amem] using hm)
        simp [aget, hc]
      · simp [aget, hk]
    · rw [if_neg hm, ih]
      by_cases hk : k1 = k
      · subst hk
        have hnone : aget cols k1 = Option.none := not_isSome_aget hm
        rw [aget_append]
        simp [aget, hnone]
      · rw [aget_append]
        cases hc : aget cols k <;> simp [aget, hk, hc]

/-- One step of `processDataDict` leaves every other key's column
unchanged. -/
lemma processDict_step_aget_ne (cols : List (String × String)) (k1 : String)
    (v : PyValue) (k : String) (h : k1 ≠ k) :
    aget ((fun cols (kv : String × PyValue) =>
      if strLower kv.1 = "topic" ∨ strLower kv.1 = "ingested_at" ∨ strLower kv.1 = "id" then
        cols
      else
        match kv.2 with
        | .dict _ => aset cols kv.1 "json"
        | .list (x :: _) =>
          match x with
          | .dict _ => aset cols kv.1 "json"
          | .list _ => aset cols kv.1 "json"
          | _ => aset cols kv.1 (analyze_value x)
        | w => aset cols kv.1 (analyze_value w)) cols (k1, v)) k = aget cols k := by
  by_cases hskip : strLower k1 = "topic" ∨ strLower k1 = "ingested_at" ∨ strLower k1 = "id"
  · simp only [if_pos hskip]
  · simp only [if_neg hskip]
    have hne : k ≠ k1 := fun hh => h hh.symm
    cases v with
    | dict dd => exact aget_aset_ne _ _ hne
    | list l =>
      cases l with
      | nil => exact aget_aset_ne _ _ hne
      | cons x xs => cases x <;> exact aget_aset_ne _ _ hne
    | _ => exact aget_aset_ne _ _ hne

lemma processDict_fold_preserve (d : List (String × PyValue))
    (cols : List (String × String)) (k : String) (h : k ∉ d.map Prod.fst) :
    aget (d.foldl (fun cols kv =>
      if strLower kv.1 = "topic" ∨ strLower kv.1 = "ingested_at" ∨ strLower kv.1 = "id" then
        cols
      else
        match kv.2 with
        | .dict _ => aset cols kv.1 "json"
        | .list (x :: _) =>
          match x with
          | .dict _ => aset cols kv.1 "json"
          | .list _ => aset cols kv.1 "json"
          | _ => aset cols kv.1 (analyze_value x)
        | w => aset cols kv.1 (analyze_value w)) cols) k = aget cols k := by
  induction d generalizing cols with
  | nil => rfl
  | cons kv d ih =>
    obtain ⟨k1, v⟩ := kv
    simp only [List.map_cons, List.mem_cons] at h
    push_neg at h
    have h1 : k1 ≠ k := fun hh => h.1 hh.symm
    rw [List.foldl_cons, ih _ h.2, processDict_step_aget_ne cols k1 v k h1]

lemma processDict_fold_bool (d : List (String × PyValue))
    (cols : List (String × String)) (k : String) (b : Bool)
    (hnd : (d.map Prod.fst).Nodup)
    (hk : aget d k = some (.bool b))
    (hmeta : ¬(strLower k = "topic" ∨ strLower k = "ingested_at" ∨ strLower k = "id")) :
    aget (d.foldl (fun cols kv =>
      if strLower kv.1 = "topic" ∨ strLower kv.1 = "ingested_at" ∨ strLower kv.1 = "id" then
        cols
      else
        match kv.2 with
        | .dict _ => aset cols kv.1 "json"
        | .list (x :: _) =>
          match x with
          | .dict _ => aset cols kv.1 "json"
          | .list _ => aset cols kv.1 "json"
          | _ => aset cols kv.1 (analyze_value x)
        | w => aset cols kv.1 (analyze_value w)) cols) k = some "boolean" := by
  induction d generalizing cols with
  | nil => simp [aget] at hk
  | cons kv d ih =>
    obtain ⟨k1, v⟩ := kv
    simp only [List.map_cons, List.nodup_cons] at hnd
    by_cases hk1 : k1 = k
    · subst hk1
      have hv : v = .bool b := by
        simpa [aget] using hk
      subst hv
      rw [List.foldl_cons, processDict_fold_preserve _ _ _ hnd.1]
      simp only [if_neg hmeta]
      exact aget_aset_self cols k1 "boolean"
    · have hrest : aget d k = some (.bool b) := by
        simpa [aget, hk1] using hk
      rw [List.foldl_cons]
      exact ih _ hnd.2 hrest

/-- C5 counterexample: a payload field holding a boolean is typed `int`
by `PatternMatcher.derive_columns_auto` — Python's `bool` passes the
`isinstance(vv, int)` test, and the function has no boolean branch —
while `TableManager._get_data_columns` types it `boolean` as the claim
says column synthesis should. -/
theorem derive_columns_auto_bool_counterexample :
    aget (derive_columns_auto (.dict [("flag", .bool true)])) "flag" = some "int" ∧
    aget (get_data_columns (.dict [("flag", .bool true)])) "flag" = some "boolean" ∧
    ("int" : String) ≠ "boolean" := by
  refine ⟨rfl, rfl, by decide⟩

/-- C5 amended: on every flat payload field holding a boolean (key not
shadowed by the metadata exclusions), `derive_columns_auto` assigns the
column type `int`, whereas `_get_data_columns` assigns `boolean`; the two
column-synthesis routines disagree on boolean fields. -/
theorem derive_columns_auto_bool_is_int (d : List (String × PyValue)) (k : String)
    (b : Bool) (hnd : (d.map Prod.fst).Nodup) (hk : aget d k = some (.bool b))
    (hd : aget d "d" = Option.none) (hkt : k ≠ "topic")
    (hmeta : ¬(strLower k = "topic" ∨ strLower k = "ingested_at" ∨ strLower k = "id")) :
    aget (derive_columns_auto (.dict d)) k = some "int" ∧
    aget (get_data_columns (.dict d)) k = some "boolean" := by
  constructor
  · show aget (match aget d "d" with
      | some (.dict dd) =>
        let cols := dd.foldl
          (fun cols kv =>
            if amem cols kv.1 then cols
            else cols ++ [(kv.1, inferTypeAuto (firstIfList kv.2))]) [("topic", "string")]
        if amem d "ts" then aset cols "ts" "string" else cols
      | _ =>
        d.foldl
          (fun cols kv =>
            if amem cols kv.1 then cols
            else cols ++ [(kv.1, inferTypeAuto kv.2)]) [("topic", "string")]) k = some "int"
    rw [hd]
    rw [derive_flat_fold_aget]
    have hcols0 : aget [("topic", "string")] k = Option.none := by
      have h1 : ¬("topic" = k) := fun hh => hkt hh.symm
      simp [aget, h1]
    rw [hcols0, hk]
    rfl
  · show aget (match aget d "d" with
      | some (.dict dd) =>
        let cols := processDataDict dd
        if amem d "ts" then aset cols "ts" "string" else cols
      | _ => processDataDict d) k = some "boolean"
    rw [hd]
    exact processDict_fold_bool d [] k b hnd hk hmeta

/-- Witness for the amended C5 statement at a concrete payload. -/
theorem derive_columns_auto_bool_is_int_witness :
    aget (derive_columns_auto (.dict [("flag", .bool true)])) "flag" = some "int" ∧
    aget (get_data_columns (.dict [("flag", .bool true)])) "flag" = some "boolean" :=
  derive_columns_auto_bool_is_int [("flag", .bool true)] "flag" true
    (by simp) rfl rfl (by decide) (by decide)

/-! ## Proofs: interval difference row P0 trackers (C10) -/

/-- The difference loop of `_calculate_interval_difference` only writes
keys of the current reading, so other fields keep their base value. -/
lemma ivdiff_fold_preserve (reading prevR : List (String × ℚ))
    (base : List (String × PyValue)) (k : String)
    (h : k ∉ reading.map Prod.fst) :
    aget (reading.foldl (fun dr kv =>
      match aget prevR kv.1 with
      | some prev => aset dr kv.1 (.float (kv.2 - prev))
      | Option.none => dr) base) k = aget base k := by
  induction reading generalizing base with
  | nil => rfl
  | cons kv reading ih =>
    obtain ⟨k1, v⟩ := kv
    simp only [List.map_cons, List.mem_cons] at h
    push_neg at h
    rw [List.foldl_cons, ih _ h.2]
    cases aget prevR k1 with
    | none => rfl
    | some prev => exact aget_aset_ne _ _ h.1

/-- C10: every row emitted by the interval substream carries the literal
`P0` trackers: `start_P0_value` is the previous interval reading's `P0`
(defaulting to `0.0`), `end_P0_value` the closing current reading's `P0`
(defaulting to `0.0`), and the time fields are `HHMMSS` renderings of the
stored previous and last timestamps (empty string when the previous
timestamp is absent).  The payload is assumed not to contain numeric
fields named like the four trackers, which would be overwritten by the
difference loop. -/
theorem interval_diff_row_P0_fields (topic device_id : String)
    (row : List (String × PyValue)) (freq : Nat) (now : PyTime)
    (info : IntervalState) (prev : List (String × ℚ))
    (hprev : info.previous_interval_reading = some prev)
    (hkey : info.current_interval ≠ interval_boundary (extract_timestamp row now) freq)
    (hnum : (extractNumericMap row).isEmpty = false)
    (hc : ∀ s ∈ (["start_P0_value", "start_P0_time", "end_P0_value",
      "end_P0_time"] : List String), s ∉ info.current_reading.map Prod.fst) :
    ∃ dr, (process_reading (some info) topic device_id row freq now).1 = some dr ∧
      aget dr "start_P0_value" = some (.float ((aget prev "P0").getD 0)) ∧
      aget dr "start_P0_time" = some (.str (match info.previous_timestamp with
        | some t0 => strftimeHMS t0
        | Option.none => "")) ∧
      aget dr "end_P0_value" = some (.float ((aget info.current_reading "P0").getD 0)) ∧
      aget dr "end_P0_time" = some (.str (strftimeHMS info.last_timestamp)) := by
  refine ⟨calc_interval_difference topic device_id row info.current_reading prev
    info.current_interval info, ?_, ?_, ?_, ?_, ?_⟩
  · simp only [process_reading, hnum, Bool.false_eq_true, if_false, hprev]
    rw [if_neg hkey]
  all_goals
    unfold calc_interval_difference
    rw [ivdiff_fold_preserve _ _ _ _ (hc _ (by simp))]
    simp [aget]

/-- Witness for C10 on a concrete state and row. -/
theorem interval_diff_row_P0_fields_witness :
    ∃ dr, (process_reading (some ⟨725, [("P0", (150 : ℚ))], some [("P0", (110 : ℚ))],
        5, ⟨12, 6, 15⟩, some ⟨12, 2, 10⟩⟩) "Gree1" "103"
        [("Time", PyValue.str "121105"), ("P0", PyValue.int 200)] 5 ⟨0, 0, 0⟩).1 = some dr ∧
      aget dr "start_P0_value" = some (.float ((aget [("P0", (110 : ℚ))] "P0").getD 0)) ∧
      aget dr "start_P0_time" = some (.str (match (some ⟨12, 2, 10⟩ : Option PyTime) with
        | some t0 => strftimeHMS t0
        | Option.none => "")) ∧
      aget dr "end_P0_value" = some (.float ((aget [("P0", (150 : ℚ))] "P0").getD 0)) ∧
      aget dr "end_P0_time" = some (.str (strftimeHMS ⟨12, 6, 15⟩)) :=
  interval_diff_row_P0_fields "Gree1" "103"
    [("Time", PyValue.str "121105"), ("P0", PyValue.int 200)] 5 ⟨0, 0, 0⟩
    ⟨725, [("P0", (150 : ℚ))], some [("P0", (110 : ℚ))], 5, ⟨12, 6, 15⟩, some ⟨12, 2, 10⟩⟩
    [("P0", (110 : ℚ))] rfl (by decide) (by decide) (by decide)

/-! ## Proofs: consecutive differences (C2) -/

/-- C2 counterexample: two samples for one key whose only field is the
metadata `DeviceID` (excluded from numeric extraction).  The claim
demands a difference row on the second sample; `_calculate_differences`
finds no numeric field, leaves `differences_found` false and returns
`None` on both calls. -/
theorem consecutive_diff_counterexample :
    (consecRun "Gree1" [[("DeviceID", PyValue.str "103")],
      [("DeviceID", PyValue.str "103")]]).1 = [Option.none, Option.none] := rfl

lemma consecStep_found (acc : List (String × PyValue) × List (String × ℚ) × Bool)
    (kv : String × PyValue) :
    (consecStep acc kv).2.2 =
      (acc.2.2 || (!isMetaKey kv.1 && (try_convert_to_numeric kv.2).isSome)) := by
  unfold consecStep
  by_cases hm : isMetaKey kv.1 = true
  · simp [hm]
  · cases hc : try_convert_to_numeric kv.2 with
    | none => simp [hm, hc]
    | some cur => cases aget acc.2.1 kv.1 <;> simp [hm, hc]

lemma consecFold_found (row : List (String × PyValue))
    (acc : List (String × PyValue) × List (String × ℚ) × Bool) :
    (row.foldl consecStep acc).2.2 =
      (acc.2.2 || row.any (fun kv => !isMetaKey kv.1 && (try_convert_to_numeric kv.2).isSome)) := by
  induction row generalizing acc with
  | nil => simp
  | cons kv row ih =>
    rw [List.foldl_cons, ih, List.any_cons, consecStep_found, Bool.or_assoc]

lemma consecStep_aget_ne (acc : List (String × PyValue) × List (String × ℚ) × Bool)
    (kv : String × PyValue) (k : String) (h : k ≠ kv.1) :
    aget (consecStep acc kv).1 k = aget acc.1 k ∧
    aget (consecStep acc kv).2.1 k = aget acc.2.1 k := by
  unfold consecStep
  by_cases hm : isMetaKey kv.1 = true
  · simp [hm]
  · cases hc : try_convert_to_numeric kv.2 with
    | none => simp [hm, hc]
    | some cur =>
      cases hp : aget acc.2.1 kv.1 <;>
        simp [hm, hc, hp, aget_aset_ne _ _ h]

lemma consecFold_preserve (row : List (String × PyValue))
    (acc : List (String × PyValue) × List (String × ℚ) × Bool) (k : String)
    (h : k ∉ row.map Prod.fst) :
    aget (row.foldl consecStep acc).1 k = aget acc.1 k := by
  induction row generalizing acc with
  | nil => rfl
  | cons kv row ih =>
    simp only [List.map_cons, List.mem_cons] at h
    push_neg at h
    rw [List.foldl_cons, ih _ h.2, (consecStep_aget_ne acc kv k h.1).1]

lemma consecFold_aget (row : List (String × PyValue)) (k : String) (v : PyValue)
    (cur : ℚ) (hnd : (row.map Prod.fst).Nodup) (hk : aget row k = some v)
    (hm : isMetaKey k = false) (hc : try_convert_to_numeric v = some cur) :
    ∀ dr0 ld0 f0, aget (row.foldl consecStep (dr0, ld0, f0)).1 k =
      some (.float (match aget ld0 k with
        | some prev => cur - prev
        | Option.none => cur)) := by
  induction row with
  | nil => simp [aget] at hk
  | cons kv row ih =>
    intro dr0 ld0 f0
    obtain ⟨k1, w⟩ := kv
    simp only [List.map_cons, List.nodup_cons] at hnd
    by_cases hk1 : k1 = k
    · subst hk1
      have hv : w = v := by simpa [aget] using hk
      subst hv
      rw [List.foldl_cons]
      have hstep : consecStep (dr0, ld0, f0) (k1, w) =
          match aget ld0 k1 with
          | some prev => (aset dr0 k1 (.float (cur - prev)), aset ld0 k1 cur, true)
          | Option.none => (aset dr0 k1 (.float cur), aset ld0 k1 cur, true) := by
        unfold consecStep
        simp only [hm, Bool.false_eq_true, if_false, hc]
      cases hp : aget ld0 k1 with
      | some prev =>
        rw [hstep, hp]
        rw [consecFold_preserve _ _ _ hnd.1]
        exact aget_aset_self dr0 k1 _
      | none =>
        rw [hstep, hp]
        rw [consecFold_preserve _ _ _ hnd.1]
        exact aget_aset_self dr0 k1 _
    · have hrest : aget row k = some v := by simpa [aget, hk1] using hk
      rw [List.foldl_cons]
      rcases hstep : consecStep (dr0, ld0, f0) (k1, w) with ⟨d1, l1, f1⟩
      have hld : aget l1 k = aget ld0 k := by
        have := (consecStep_aget_ne (dr0, ld0, f0) (k1, w) k
          (fun hh => hk1 hh.symm)).2
        rw [hstep] at this
        exact this
      rw [ih hnd.2 hrest d1 l1 f1, hld]

/-- C2 amended: on the first sample `_calculate_differences` returns
`None`; on a subsequent sample it returns a row exactly when the sample
has at least one numeric non-metadata field, and in that row every
numeric non-metadata field is `current − baseline` when the field is in
the stored baseline and the raw value when it is new to the baseline. -/
theorem consecutive_diff_spec (topic : String) (st : ConsecState)
    (row : List (String × PyValue)) (hnd : (row.map Prod.fst).Nodup) :
    ((calculate_differences (some st) topic row).1.isSome = true ↔
      ∃ kv ∈ row, isMetaKey kv.1 = false ∧ (try_convert_to_numeric kv.2).isSome = true) ∧
    (∀ dr, (calculate_differences (some st) topic row).1 = some dr →
      ∀ k v cur, aget row k = some v → isMetaKey k = false →
        try_convert_to_numeric v = some cur →
        aget dr k = some (.float (match aget st.data k with
          | some prev => cur - prev
          | Option.none => cur))) ∧
    (calculate_differences Option.none topic row).1 = Option.none := by
  have hfound : (row.foldl consecStep (diffRowHead topic row, st.data, false)).2.2 =
      row.any (fun kv => !isMetaKey kv.1 && (try_convert_to_numeric kv.2).isSome) := by
    rw [consecFold_found]
    simp
  refine ⟨?_, ?_, rfl⟩
  · unfold calculate_differences
    cases hb : (row.foldl consecStep (diffRowHead topic row, st.data, false)).2.2 with
    | false =>
      simp only [hb, Bool.false_eq_true, if_false]
      rw [hb] at hfound
      constructor
      · intro h; exact absurd h (by simp)
      · intro h
        rcases h with ⟨kv, hkv, h1, h2⟩
        have : row.any (fun kv => !isMetaKey kv.1 && (try_convert_to_numeric kv.2).isSome) = true :=
          List.any_eq_true.mpr ⟨kv, hkv, by simp [h1, h2]⟩
        rw [this] at hfound
        cases hfound
    | true =>
      simp only [hb, if_true]
      rw [hb] at hfound
      constructor
      · intro _
        rcases List.any_eq_true.mp hfound.symm with ⟨kv, hkv, hp⟩
        refine ⟨kv, hkv, ?_, ?_⟩
        · rcases Bool.and_eq_true_iff.mp hp with ⟨h1, _⟩
          simpa using h1
        · exact (Bool.and_eq_true_iff.mp hp).2
      · intro _; rfl
  · intro dr hdr k v cur hk hm hc
    unfold calculate_differences at hdr
    cases hb : (row.foldl consecStep (diffRowHead topic row, st.data, false)).2.2 with
    | false => simp only [hb, Bool.false_eq_true, if_false] at hdr; cases hdr
    | true =>
      simp only [hb, if_true, Option.some.injEq] at hdr
      subst hdr
      exact consecFold_aget row k v cur hnd hk hm hc _ st.data false

/-- Witness for the amended C2 statement: baseline `P0 = 100`, current
sample `P0 = 110`. -/
theorem consecutive_diff_spec_witness :
    ((calculate_differences (some ⟨[("P0", (100 : ℚ))], Option.none, Option.none,
        Option.none, Option.none⟩) "t" [("P0", PyValue.int 110)]).1.isSome = true ↔
      ∃ kv ∈ [("P0", PyValue.int 110)], isMetaKey kv.1 = false ∧
        (try_convert_to_numeric kv.2).isSome = true) ∧
    (∀ dr, (calculate_differences (some ⟨[("P0", (100 : ℚ))], Option.none, Option.none,
        Option.none, Option.none⟩) "t" [("P0", PyValue.int 110)]).1 = some dr →
      ∀ k v cur, aget [("P0", PyValue.int 110)] k = some v → isMetaKey k = false →
        try_convert_to_numeric v = some cur →
        aget dr k = some (.float (match aget ([("P0", (100 : ℚ))] :
            List (String × ℚ)) k with
          | some prev => cur - prev
          | Option.none => cur))) ∧
    (calculate_differences Option.none "t" [("P0", PyValue.int 110)]).1 = Option.none :=
  consecutive_diff_spec "t" ⟨[("P0", (100 : ℚ))], Option.none, Option.none,
    Option.none, Option.none⟩ [("P0", PyValue.int 110)] (by simp)

/-! ## Proofs: interval emission pattern and boundary key (C1) -/

lemma process_reading_same (topic device_id : String) (freq : Nat) (now : PyTime)
    (info : IntervalState) (r : List (String × PyValue))
    (h : (extractNumericMap r).isEmpty = false)
    (heq : info.current_interval = interval_boundary (extract_timestamp r now) freq) :
    process_reading (some info) topic device_id r freq now =
      (Option.none, some { info with
        current_reading := extractNumericMap r
        last_timestamp := extract_timestamp r now }) := by
  unfold process_reading
  simp only [h, Bool.false_eq_true, if_false]
  rw [if_pos heq]

lemma process_reading_warmup (topic device_id : String) (freq : Nat) (now : PyTime)
    (info : IntervalState) (r : List (String × PyValue))
    (h : (extractNumericMap r).isEmpty = false)
    (hne : ¬info.current_interval = interval_boundary (extract_timestamp r now) freq)
    (hpn : info.previous_interval_reading = Option.none) :
    process_reading (some info) topic device_id r freq now =
      (Option.none, some
        { current_interval := interval_boundary (extract_timestamp r now) freq
          current_reading := extractNumericMap r
          previous_interval_reading := some info.current_reading
          frequency_minutes := info.frequency_minutes
          last_timestamp := extract_timestamp r now
          previous_timestamp := some info.last_timestamp }) := by
  unfold process_reading
  simp only [h, Bool.false_eq_true, if_false]
  rw [if_neg hne, hpn]

lemma process_reading_emit (topic device_id : String) (freq : Nat) (now : PyTime)
    (info : IntervalState) (r : List (String × PyValue))
    (prevR : List (String × ℚ))
    (h : (extractNumericMap r).isEmpty = false)
    (hne : ¬info.current_interval = interval_boundary (extract_timestamp r now) freq)
    (hps : info.previous_interval_reading = some prevR) :
    process_reading (some info) topic device_id r freq now =
      (some (calc_interval_difference topic device_id r info.current_reading prevR
        info.current_interval info), some
        { current_interval := interval_boundary (extract_timestamp r now) freq
          current_reading := extractNumericMap r
          previous_interval_reading := some info.current_reading
          frequency_minutes := info.frequency_minutes
          last_timestamp := extract_timestamp r now
          previous_timestamp := some info.last_timestamp }) := by
  unfold process_reading
  simp only [h, Bool.false_eq_true, if_false]
  rw [if_neg hne, hps]

/-- The emitted row's `interval_boundary` field is the boundary passed by
the caller, provided no numeric field shadows it. -/
lemma calc_boundary_field (topic device_id : String)
    (r : List (String × PyValue)) (reading prevR : List (String × ℚ)) (b : Nat)
    (st : IntervalState) (hib : "interval_boundary" ∉ reading.map Prod.fst) :
    aget (calc_interval_difference topic device_id r reading prevR b st)
      "interval_boundary" = some (.int (b : Int)) := by
  unfold calc_interval_difference
  rw [ivdiff_fold_preserve _ _ _ _ hib]
  simp [aget]

lemma intervalRunFrom_spec (topic device_id : String) (freq : Nat) (now : PyTime)
    (k0 : Nat) (rows : List (List (String × PyValue))) :
    ∀ (info : IntervalState) (kprev : Nat),
    info.current_interval = kprev →
    (∀ r ∈ rows, (extractNumericMap r).isEmpty = false) →
    (∀ r ∈ rows, "interval_boundary" ∉ (extractNumericMap r).map Prod.fst) →
    List.Chain' (· ≤ ·) (kprev ::
      rows.map (fun r => interval_boundary (extract_timestamp r now) freq)) →
    k0 ≤ kprev →
    (info.previous_interval_reading = Option.none ↔ kprev = k0) →
    "interval_boundary" ∉ info.current_reading.map Prod.fst →
    (intervalRunFrom topic device_id freq now (some info) rows).map
        (fun o => o.bind (fun dr => aget dr "interval_boundary")) =
      (specIntervalSeq k0 kprev
        (rows.map (fun r => interval_boundary (extract_timestamp r now) freq))).map
        (Option.map (fun b : Nat => PyValue.int (Int.ofNat b))) := by
  induction rows with
  | nil => intro info kprev _ _ _ _ _ _ _; rfl
  | cons r rest ih =>
    intro info kprev hpk hnum hib hchain hk0 hprev hcur
    have hnum1 : (extractNumericMap r).isEmpty = false := hnum r (by simp)
    have hnumrest := fun x hx => hnum x (List.mem_cons_of_mem r hx)
    have hibrest := fun x hx => hib x (List.mem_cons_of_mem r hx)
    rw [List.map_cons] at hchain
    have hle : kprev ≤ interval_boundary (extract_timestamp r now) freq :=
      (List.chain'_cons.mp hchain).1
    have hchain1 : List.Chain' (· ≤ ·)
        (interval_boundary (extract_timestamp r now) freq ::
          rest.map (fun r => interval_boundary (extract_timestamp r now) freq)) :=
      (List.chain'_cons.mp hchain).2
    by_cases heq : kprev = interval_boundary (extract_timestamp r now) freq
    · have hsame : info.current_interval = interval_boundary (extract_timestamp r now) freq :=
        hpk.trans heq
      rw [intervalRunFrom, process_reading_same topic device_id freq now info r hnum1 hsame]
      rw [List.map_cons, List.map_cons, specIntervalSeq, if_pos heq.symm]
      rw [ih { info with
            current_reading := extractNumericMap r
            last_timestamp := extract_timestamp r now }
          (interval_boundary (extract_timestamp r now) freq)
          (by rw [show ({ info with
              current_reading := extractNumericMap r
              last_timestamp := extract_timestamp r now } : IntervalState).current_interval =
            info.current_interval from rfl, hsame])
          hnumrest hibrest hchain1 (heq ▸ hk0) (heq ▸ hprev) (hib r (by simp))]
      simp
    · have hne : ¬info.current_interval = interval_boundary (extract_timestamp r now) freq := by
        rw [hpk]; exact heq
      have hlt : kprev < interval_boundary (extract_timestamp r now) freq :=
        lt_of_le_of_ne hle heq
      have hkne : ¬interval_boundary (extract_timestamp r now) freq = k0 :=
        Ne.symm (ne_of_lt (lt_of_le_of_lt hk0 hlt))
      cases hpn : info.previous_interval_reading with
      | none =>
        have hck0 : kprev = k0 := hprev.mp hpn
        rw [intervalRunFrom, process_reading_warmup topic device_id freq now info r
          hnum1 hne hpn]
        rw [List.map_cons, List.map_cons, specIntervalSeq,
          if_neg (fun hh => heq hh.symm), if_pos hck0]
        rw [ih { current_interval := interval_boundary (extract_timestamp r now) freq
                 current_reading := extractNumericMap r
                 previous_interval_reading := some info.current_reading
                 frequency_minutes := info.frequency_minutes
                 last_timestamp := extract_timestamp r now
                 previous_timestamp := some info.last_timestamp }
          (interval_boundary (extract_timestamp r now) freq) rfl
          hnumrest hibrest hchain1 (le_of_lt (lt_of_le_of_lt hk0 hlt))
          (by
            constructor
            · intro hh; cases hh
            · intro hh; exact absurd hh hkne)
          (hib r (by simp))]
        simp
      | some prevR =>
        have hck0 : ¬kprev = k0 := by
          intro hh
          rw [hprev.mpr hh] at hpn
          cases hpn
        rw [intervalRunFrom, process_reading_emit topic device_id freq now info r
          prevR hnum1 hne hpn]
        rw [List.map_cons, List.map_cons, specIntervalSeq,
          if_neg (fun hh => heq hh.symm), if_neg hck0]
        rw [ih { current_interval := interval_boundary (extract_timestamp r now) freq
                 current_reading := extractNumericMap r
                 previous_interval_reading := some info.current_reading
                 frequency_minutes := info.frequency_minutes
                 last_timestamp := extract_timestamp r now
                 previous_timestamp := some info.last_timestamp }
          (interval_boundary (extract_timestamp r now) freq) rfl
          hnumrest hibrest hchain1 (le_of_lt (lt_of_le_of_lt hk0 hlt))
          (by
            constructor
            · intro hh; cases hh
            · intro hh; exact absurd hh hkne)
          (hib r (by simp))]
        congr 1
        simp only [Option.some_bind]
        rw [calc_boundary_field topic device_id r info.current_reading prevR
          info.current_interval info hcur, hpk]
        rfl

/-- C1 counterexample (spec scenario 4 shortened): three ordered samples
in three distinct 5-minute intervals.  The third sample triggers the
first emission; its floor-aligned key is 730 (`12:10`), but the emitted
row's `interval_boundary` is 725 (`12:05`) — the key of the interval
being closed, because `process_reading` passes
`interval_info['current_interval']` before updating it. -/
theorem interval_boundary_counterexample :
    (intervalRun "Gree1" "103"
        [[("Time", PyValue.str "120030"), ("P0", PyValue.int 100)],
         [("Time", PyValue.str "120615"), ("P0", PyValue.int 150)],
         [("Time", PyValue.str "121105"), ("P0", PyValue.int 200)]] 5 ⟨0, 0, 0⟩).map
        (fun o => o.bind (fun dr => aget dr "interval_boundary")) =
      [Option.none, Option.none, some (.int 725)] ∧
    interval_boundary (extract_timestamp
      [("Time", PyValue.str "121105"), ("P0", PyValue.int 200)] ⟨0, 0, 0⟩) 5 = 730 ∧
    (725 : Int) ≠ 730 :=
  ⟨rfl, rfl, by decide⟩

/-- C1 amended: for ordered samples (non-decreasing interval keys), each
with at least one numeric field and none shadowing `interval_boundary`,
the run emits nothing on the first sample, nothing while the key is
unchanged, nothing on the first transition (warmup), and exactly one row
on every later transition — whose `interval_boundary` is the key of the
interval being *closed* (the previous sample's key), not the new
interval's key. -/
theorem interval_run_spec (topic device_id : String) (freq : Nat) (now : PyTime)
    (rows : List (List (String × PyValue)))
    (hnum : ∀ r ∈ rows, (extractNumericMap r).isEmpty = false)
    (hib : ∀ r ∈ rows, "interval_boundary" ∉ (extractNumericMap r).map Prod.fst)
    (hchain : List.Chain' (· ≤ ·)
      (rows.map (fun r => interval_boundary (extract_timestamp r now) freq))) :
    (intervalRun topic device_id rows freq now).map
        (fun o => o.bind (fun dr => aget dr "interval_boundary")) =
      match rows.map (fun r => interval_boundary (extract_timestamp r now) freq) with
      | [] => []
      | k0 :: ks => Option.none :: (specIntervalSeq k0 k0 ks).map
          (Option.map (fun b : Nat => PyValue.int (Int.ofNat b))) := by
  cases rows with
  | nil => rfl
  | cons r rest =>
    have hnum1 : (extractNumericMap r).isEmpty = false := hnum r (by simp)
    have hinit : process_reading Option.none topic device_id r freq now =
        (Option.none, some
          { current_interval := interval_boundary (extract_timestamp r now) freq
            current_reading := extractNumericMap r
            previous_interval_reading := Option.none
            frequency_minutes := freq
            last_timestamp := extract_timestamp r now
            previous_timestamp := Option.none }) := by
      unfold process_reading
      simp only [hnum1, Bool.false_eq_true, if_false]
    unfold intervalRun
    rw [intervalRunFrom, hinit]
    rw [List.map_cons]
    rw [intervalRunFrom_spec topic device_id freq now
      (interval_boundary (extract_timestamp r now) freq) rest
      _ (interval_boundary (extract_timestamp r now) freq) rfl
      (fun x hx => hnum x (List.mem_cons_of_mem r hx))
      (fun x hx => hib x (List.mem_cons_of_mem r hx))
      (by simpa using hchain) (le_refl _) (by simp) (hib r (by simp))]
    simp

/-- Witness for the amended C1 statement: the four samples of spec
scenario 4 (`12:00:30`, `12:02:10`, `12:06:15`, `12:11:05`, F = 5). -/
theorem interval_run_spec_witness :
    (intervalRun "Gree1" "103"
        [[("Time", PyValue.str "120030"), ("P0", PyValue.int 100)],
         [("Time", PyValue.str "120210"), ("P0", PyValue.int 110)],
         [("Time", PyValue.str "120615"), ("P0", PyValue.int 150)],
         [("Time", PyValue.str "121105"), ("P0", PyValue.int 200)]] 5 ⟨0, 0, 0⟩).map
        (fun o => o.bind (fun dr => aget dr "interval_boundary")) =
      [Option.none, Option.none, Option.none, some (.int 725)] :=
  (interval_run_spec "Gree1" "103" 5 ⟨0, 0, 0⟩
    [[("Time", PyValue.str "120030"), ("P0", PyValue.int 100)],
     [("Time", PyValue.str "120210"), ("P0", PyValue.int 110)],
     [("Time", PyValue.str "120615"), ("P0", PyValue.int 150)],
     [("Time", PyValue.str "121105"), ("P0", PyValue.int 200)]]
    (by decide) (by decide)
    (show List.Chain' (· ≤ ·) [720, 720, 725, 730] by
      simp [List.chain'_cons])).trans rfl

/-! ## Proofs: router baseline behaviour (C3) -/

/-- C3 counterexample (spec scenario 1 reduced): the first sample for
`(Gree1, 103)` is a baseline — no row is inserted and the result carries
the baseline flag — but, contrary to the claim, `route` performs **no**
DeviceRegistry registration on the baseline path: the registry stays
empty, so it does not map the key with `message_count = 1`. -/
theorem route_baseline_counterexample :
    (route_auto ⟨[], [], [], []⟩ "Gree1"
      (.dict [("DeviceID", .str "103"), ("Time", .str "120000"), ("P0", .str "10")])
      "gree1_9" Option.none Option.none ⟨0, 0, 0⟩ 0).1.registry = [] ∧
    (route_auto ⟨[], [], [], []⟩ "Gree1"
      (.dict [("DeviceID", .str "103"), ("Time", .str "120000"), ("P0", .str "10")])
      "gree1_9" Option.none Option.none ⟨0, 0, 0⟩ 0).1.inserts = [] ∧
    (route_auto ⟨[], [], [], []⟩ "Gree1"
      (.dict [("DeviceID", .str "103"), ("Time", .str "120000"), ("P0", .str "10")])
      "gree1_9" Option.none Option.none ⟨0, 0, 0⟩ 0).2.baseline = true ∧
    aget (route_auto ⟨[], [], [], []⟩ "Gree1"
      (.dict [("DeviceID", .str "103"), ("Time", .str "120000"), ("P0", .str "10")])
      "gree1_9" Option.none Option.none ⟨0, 0, 0⟩ 0).1.registry ("Gree1", "103") =
      Option.none :=
  ⟨rfl, rfl, rfl, rfl⟩

/-- C3 amended: when the device id is present and neither substream
emits a row, `route` inserts nothing, registers nothing (the registry is
untouched — registration only happens together with a derived-row
insert), and returns a result carrying the baseline flag. -/
theorem route_auto_baseline_spec (st : RouteState) (topic : String) (payload : PyValue)
    (table_name : String) (routeIC ruleIC : Option IntervalCfg) (now : PyTime)
    (tick : Nat) (device_id : String)
    (hdev : extract_device_id payload (some (to_row_auto topic payload)) = some device_id)
    (hdiff : (calculate_differences (aget st.consec (mkCacheKey topic device_id)) topic
      (to_row_auto topic payload)).1 = Option.none)
    (hint : (get_interval_config routeIC ruleIC).1 = true →
      (process_reading (aget st.interval (mkCacheKey topic device_id)) topic device_id
        (to_row_auto topic payload) (get_interval_config routeIC ruleIC).2.1 now).1 =
        Option.none) :
    (route_auto st topic payload table_name routeIC ruleIC now tick).1.inserts =
      st.inserts ∧
    (route_auto st topic payload table_name routeIC ruleIC now tick).1.registry =
      st.registry ∧
    (route_auto st topic payload table_name routeIC ruleIC now tick).2.baseline = true := by
  simp only [route_auto, hdev, hdiff]
  by_cases hcfg : (get_interval_config routeIC ruleIC).1 = true
  · simp only [hcfg, if_true, hint hcfg]
    cases (process_reading (aget st.interval (mkCacheKey topic device_id)) topic device_id
      (to_row_auto topic payload) (get_interval_config routeIC ruleIC).2.1 now).2 <;>
      simp
  · simp only [hcfg, Bool.false_eq_true, if_false]
    simp

/-- Witness for the amended C3 statement on a concrete first sample. -/
theorem route_auto_baseline_spec_witness :
    (route_auto ⟨[], [], [], []⟩ "Energy1"
      (.dict [("DeviceID", .str "m1"), ("P0", .int 12345)])
      "energy1_2" Option.none Option.none ⟨0, 0, 0⟩ 0).1.inserts = [] ∧
    (route_auto ⟨[], [], [], []⟩ "Energy1"
      (.dict [("DeviceID", .str "m1"), ("P0", .int 12345)])
      "energy1_2" Option.none Option.none ⟨0, 0, 0⟩ 0).1.registry = [] ∧
    (route_auto ⟨[], [], [], []⟩ "Energy1"
      (.dict [("DeviceID", .str "m1"), ("P0", .int 12345)])
      "energy1_2" Option.none Option.none ⟨0, 0, 0⟩ 0).2.baseline = true :=
  route_auto_baseline_spec ⟨[], [], [], []⟩ "Energy1"
    (.dict [("DeviceID", .str "m1"), ("P0", .int 12345)])
    "energy1_2" Option.none Option.none ⟨0, 0, 0⟩ 0 "m1" rfl rfl
    (fun h => absurd h (by decide))

/-! ## Proofs: pattern matching (C4) -/

lemma bestMatch_go (keys : List String) (ps : List Pattern) :
    ∀ acc : Option Pattern,
    ps.foldl
      (fun best p =>
        if patternQualifies keys p then
          let sc := exactnessScore keys (p.matchKeys.dedup)
          match best with
          | Option.none => some (sc, p)
          | some b => if sc > b.1 then some (sc, p) else some b
        else best)
      (acc.map (fun p => (exactnessScore keys (p.matchKeys.dedup), p))) =
    ((ps.filter (patternQualifies keys)).foldl
        (List.argAux fun b c =>
          exactnessScore keys (c.matchKeys.dedup) < exactnessScore keys (b.matchKeys.dedup))
        acc).map
      (fun p => (exactnessScore keys (p.matchKeys.dedup), p)) := by
  induction ps with
  | nil => intro acc; rfl
  | cons p ps ih =>
    intro acc
    by_cases hq : patternQualifies keys p = true
    · rw [List.foldl_cons, List.filter_cons_of_pos hq, List.foldl_cons]
      have hstep :
          (if patternQualifies keys p then
            let sc := exactnessScore keys (p.matchKeys.dedup)
            match acc.map (fun q => (exactnessScore keys (q.matchKeys.dedup), q)) with
            | Option.none => some (sc, p)
            | some b => if sc > b.1 then some (sc, p) else some b
          else acc.map (fun q => (exactnessScore keys (q.matchKeys.dedup), q))) =
          (List.argAux (fun b c =>
            exactnessScore keys (c.matchKeys.dedup) < exactnessScore keys (b.matchKeys.dedup))
            acc p).map (fun q => (exactnessScore keys (q.matchKeys.dedup), q)) := by
        cases acc with
        | none => simp [hq, List.argAux]
        | some a =>
          simp only [hq, if_true, Option.map_some, List.argAux]
          by_cases hlt : exactnessScore keys (a.matchKeys.dedup) <
              exactnessScore keys (p.matchKeys.dedup)
          · rw [if_pos hlt]
            simp [hlt]
          · rw [if_neg hlt]
            simp [hlt]
      rw [hstep]
      exact ih _
    · rw [List.foldl_cons, List.filter_cons_of_neg hq]
      have hstep :
          (if patternQualifies keys p then
            let sc := exactnessScore keys (p.matchKeys.dedup)
            match acc.map (fun q => (exactnessScore keys (q.matchKeys.dedup), q)) with
            | Option.none => some (sc, p)
            | some b => if sc > b.1 then some (sc, p) else some b
          else acc.map (fun q => (exactnessScore keys (q.matchKeys.dedup), q))) =
          acc.map (fun q => (exactnessScore keys (q.matchKeys.dedup), q)) := by
        simp [hq]
      rw [hstep]
      exact ih acc

/-- The candidate fold of `PatternMatcher.match` computes the argmax of
the exactness score over the qualifying patterns, the earliest pattern
winning ties. -/
lemma bestMatch_eq_argmax (patterns : List Pattern) (keys : List String) :
    bestMatch patterns keys =
      ((patterns.filter (patternQualifies keys)).argmax
        (fun p => exactnessScore keys (p.matchKeys.dedup))).map
        (fun p => (exactnessScore keys (p.matchKeys.dedup), p)) := by
  unfold bestMatch List.argmax
  exact bestMatch_go keys patterns Option.none

/-- C4: `PatternMatcher.match` implements exactly the claim's procedure:
over the payload's key set it considers the patterns with a non-empty
required key set contained in the payload's keys, scores them 1000 on an
exact key-set match and by required-set size otherwise, and returns the
highest-scoring one with the earliest winning ties (`List.argmax` on the
qualifying sublist); failing that it repeats the procedure over the
nested `d` dict's keys, then falls back to the first schema-marker
pattern when the payload has both `d` and `ts`, and otherwise yields
nothing. -/
theorem pm_match_eq_claimMatch (patterns : List Pattern) (payload : PyValue) :
    pm_match patterns payload = claimMatch patterns payload := by
  cases payload with
  | dict d =>
    show
      (match (bestMatch patterns (keySet d)).map
          (fun (b : Nat × Pattern) => (b.2.name, b.2)) with
      | some r => some r
      | Option.none =>
        match dEnvelope (PyValue.dict d) with
        | some dd =>
          match (bestMatch patterns (keySet dd)).map
              (fun (b : Nat × Pattern) => (b.2.name, b.2)) with
          | some r => some r
          | Option.none => schemaStage patterns (PyValue.dict d)
        | Option.none => schemaStage patterns (PyValue.dict d)) =
      match (patterns.filter (patternQualifies (keySet d))).argmax
          (fun p => exactnessScore (keySet d) (p.matchKeys.dedup)) with
      | some p => some (p.name, p)
      | Option.none =>
        match dEnvelope (PyValue.dict d) with
        | some dd =>
          match (patterns.filter (patternQualifies (keySet dd))).argmax
              (fun p => exactnessScore (keySet dd) (p.matchKeys.dedup)) with
          | some p => some (p.name, p)
          | Option.none => schemaStage patterns (PyValue.dict d)
        | Option.none => schemaStage patterns (PyValue.dict d)
    rw [bestMatch_eq_argmax]
    cases h1 : (patterns.filter (patternQualifies (keySet d))).argmax
        (fun p => exactnessScore (keySet d) (p.matchKeys.dedup)) with
    | some p => simp
    | none =>
      simp only [Option.map_none]
      cases h2 : dEnvelope (.dict d) with
      | some dd =>
        simp only []
        rw [bestMatch_eq_argmax]
        cases h3 : (patterns.filter (patternQualifies (keySet dd))).argmax
            (fun p => exactnessScore (keySet dd) (p.matchKeys.dedup)) with
        | some q => simp
        | none => simp
      | none => simp
  | none => rfl
  | bool b => rfl
  | int n => rfl
  | float q => rfl
  | str s => rfl
  | list l => rfl

end AVD
